import Mathlib

/-!
UCID: a shallow embedding of `ucid.go`

A UCID is a token `<context>_<hhhh>_<hhhh>_<hhhh>_<hhhh>`.  This file embeds the
constants, the record `Data`, the decoder `DataFromUCID`, the encoder
`Data.ToUCID` and the generator (`NewData`, `New`, `MustNew`) of `ucid.go`, together with the pieces of the Go standard library
they call (`regexp`, `strconv.ParseInt`, `fmt.Sprintf`, `strings.Join`, string
slicing), and proves properties of them.

Modelling conventions.

* A Go `string` is a Lean `String`, i.e. a sequence of Unicode scalar values;
  `len` is the length of its UTF-8 encoding (`goLen`), `range` walks its runes.
  Go strings that are not valid UTF-8 are outside the model.
* `int64` and `int32` values are `Int`; the one narrowing conversion of the
  source, `int32(random)`, is `toInt32`, which wraps modulo `2^32`.
* A Go result pair `(value, error)` is a Lean pair whose second component is an
  `Option GoError`; `none` is the `nil` error.
* A run-time panic (a slice expression out of range) is the outer `none` of
  `Data.ToUCID`; the panic of `MustNew` is the `Except.error` of its result.
* The two reads of the environment in `NewData`, the clock and the call of
  `RandomGenerator`, are arguments of `NewData`, `New` and `MustNew`.
-/

namespace Ucid

/-! ## Constants and errors (`ucid.go`, lines 13-30) -/

/-- Shortest context accepted, in bytes. -/
def MinContextLen : Nat := 2

/-- Longest context accepted, in bytes. -/
def MaxContextLen : Nat := 8

/-- Largest timestamp, `int64(0x0000_0FFF_FFFF_FFFF)`. -/
def MaxTimestamp : Int := 0x00000FFFFFFFFFFF

/-- Largest random value, `int32(0x000F_FFFF)`. -/
def MaxRandom : Int := 0x000FFFFF

/-- String returned by the encoder next to every error. -/
def ErrorUCID : String := "err_0000_0000_0000_0000"

/-- Error values: the eight sentinels declared in `ucid.go`, and the two kinds of
`*strconv.NumError` that `strconv.ParseInt` can return. -/
inductive GoError where
  | ErrContextTooShort
  | ErrContextTooLong
  | ErrContextOnlyLowerCaseLetter
  | ErrTimestampNegative
  | ErrTimestampTooHigh
  | ErrRandomNegative
  | ErrRandomTooHigh
  | ErrInvalidUCID
  | NumErrorSyntax
  | NumErrorRange
  deriving DecidableEq, Repr

open GoError

/-- Record `Data` of `ucid.go`: `Context string`, `Timestamp int64`, `Random int32`. -/
structure Data where
  Context : String
  Timestamp : Int
  Random : Int
  deriving DecidableEq, Repr

/-- Zero value `Data{}` of Go. -/
def Data.zero : Data := ⟨"", 0, 0⟩

/-! ## Go primitives used by the source -/

/-- Go `len(s)` on a string: the number of bytes of its UTF-8 encoding. -/
def goLen (s : String) : Nat := s.utf8ByteSize

/-- Go conversion `int32(x)` of an `int64`: keeps the low 32 bits, two's complement. -/
def toInt32 (x : Int) : Int := (x + 2 ^ 31) % 2 ^ 32 - 2 ^ 31

/-- Go `strings.Join(elems, sep)`. -/
def stringsJoin : List String → String → String
  | [], _ => ""
  | [a], _ => a
  | a :: b :: rest, sep => a ++ sep ++ stringsJoin (b :: rest) sep

/-- Go slice expression `s[lo:hi]` on a string of one-byte characters; `none` is the
run-time panic for bounds out of range. -/
def sliceStr (s : String) (lo hi : Nat) : Option String :=
  if lo ≤ hi ∧ hi ≤ s.data.length then some ⟨(s.data.drop lo).take (hi - lo)⟩ else none

/-! ### `fmt.Sprintf` with the verb `%0Wx` -/

/-- Digit table `"0123456789abcdefx"` of package `fmt`, indexed by a value below 16. -/
def ldigit (d : Nat) : Char :=
  match d with
  | 0 => '0' | 1 => '1' | 2 => '2' | 3 => '3' | 4 => '4' | 5 => '5' | 6 => '6' | 7 => '7'
  | 8 => '8' | 9 => '9' | 10 => 'a' | 11 => 'b' | 12 => 'c' | 13 => 'd' | 14 => 'e'
  | _ => 'f'

/-- Digit loop of `fmt.fmtInteger` in base 16:
`for u >= 16 { buf[i] = digits[u&0xF]; u >>= 4 }; buf[i] = digits[u]`.
The argument is a `uint64`, so sixteen rounds always reach the last digit. -/
def hexLoop : Nat → Nat → List Char → List Char
  | 0, _, buf => buf
  | fuel + 1, u, buf =>
    if 16 ≤ u then hexLoop fuel (u / 16) (ldigit (u % 16) :: buf) else ldigit u :: buf

/-- Go `fmt.Sprintf("%0Wx", v)` for a signed integer `v` and width `wid`: the hex digits
of the magnitude, zero-padded up to the width (one less when a sign is written), and
the sign.  The text then has at least the width, so the padding with spaces that follows
in `fmt` adds nothing. -/
def fmtHex (wid : Nat) (v : Int) : List Char :=
  let negative := decide (v < 0)
  let digs := hexLoop 16 v.natAbs []
  let prec := if negative then wid - 1 else wid
  let padded := List.replicate (prec - digs.length) '0' ++ digs
  if negative then '-' :: padded else padded

/-- Go `fmt.Sprintf("%011x%05x", a, b)`. -/
def Sprintf_011x_05x (a b : Int) : String := ⟨fmtHex 11 a ++ fmtHex 5 b⟩

/-! ### `strconv.ParseInt` -/

/-- Digit value given by `strconv.ParseUint` to one character: `0-9`, and the letters of
either case from 10 upwards; `none` for any other character. -/
def digitVal (c : Char) : Option Nat :=
  if '0' ≤ c ∧ c ≤ '9' then some (c.toNat - '0'.toNat)
  else if 'a' ≤ c ∧ c ≤ 'z' then some (c.toNat - 'a'.toNat + 10)
  else if 'A' ≤ c ∧ c ≤ 'Z' then some (c.toNat - 'A'.toNat + 10)
  else none

/-- Loop of `strconv.ParseUint` for a base in `2..36`: accumulates the digits into `n`,
with a syntax error at a character that is no digit of the base and a range error once
the value passes `2^bitSize - 1`. -/
def parseUintLoop (base bitSize : Nat) : List Char → Nat → Except GoError Nat
  | [], n => .ok n
  | c :: cs, n =>
    match digitVal c with
    | none => .error NumErrorSyntax
    | some d =>
      if base ≤ d then .error NumErrorSyntax
      else if 2 ^ bitSize - 1 < n * base + d then .error NumErrorRange
      else parseUintLoop base bitSize cs (n * base + d)

/-- Go `strconv.ParseUint(s, base, bitSize)` for a base in `2..36`. -/
def ParseUint (s : String) (base bitSize : Nat) : Except GoError Nat :=
  if s.data.isEmpty then .error NumErrorSyntax else parseUintLoop base bitSize s.data 0

/-- Go `strconv.ParseInt(s, base, bitSize)` for a base in `2..36`: an optional sign, then
`ParseUint`, then the check against `2^(bitSize-1)`. -/
def ParseInt (s : String) (base bitSize : Nat) : Except GoError Int :=
  match s.data with
  | [] => .error NumErrorSyntax
  | c :: cs =>
    let neg := decide (c = '-')
    let rest : String := if c = '+' ∨ c = '-' then ⟨cs⟩ else s
    match ParseUint rest base bitSize with
    | .error e => .error e
    | .ok un =>
      let cutoff := 2 ^ (bitSize - 1)
      if ¬ neg ∧ cutoff ≤ un then .error NumErrorRange
      else if neg ∧ cutoff < un then .error NumErrorRange
      else .ok (if neg then - (un : Int) else (un : Int))

/-! ### `regexp`: anchored patterns made of literals and captured, counted classes -/

/-- One piece of a pattern: a literal character, or a capture group `(class{lo,hi})`. -/
inductive Tok where
  | lit (c : Char)
  | grp (cls : Char → Bool) (lo hi : Nat)

/-- Repetition counts a greedy `{lo,hi}` tries, the longest first. -/
def counts (lo hi : Nat) : List Nat := (List.range' lo (hi + 1 - lo)).reverse

/-- Anchored match `^toks$` against a list of characters, leftmost-first with greedy
repetition; the result lists the text of the capture groups in order. -/
def matchToks : List Tok → List Char → Option (List String)
  | [], cs => if cs.isEmpty then some [] else none
  | Tok.lit c :: ts, cs =>
    match cs with
    | [] => none
    | x :: xs => if x = c then matchToks ts xs else none
  | Tok.grp cls lo hi :: ts, cs =>
    (counts lo hi).findSome? fun n =>
      if n ≤ cs.length ∧ (cs.take n).all cls then
        (matchToks ts (cs.drop n)).map fun caps => String.mk (cs.take n) :: caps
      else none

/-- Go `(*Regexp).FindStringSubmatch` for a pattern `^toks$`: `none` is the `nil` result;
otherwise element 0 is the whole match and elements 1.. are the capture groups. -/
def FindStringSubmatch (toks : List Tok) (s : String) : Option (List String) :=
  (matchToks toks s.data).map fun caps => s :: caps

/-- Character class `[a-z]`. -/
def isLower (c : Char) : Bool := decide ('a' ≤ c ∧ c ≤ 'z')

/-- Character class `[0-9a-f]`. -/
def isHex (c : Char) : Bool := decide (('0' ≤ c ∧ c ≤ '9') ∨ ('a' ≤ c ∧ c ≤ 'f'))

/-- Pattern `ucidParsePattern` of `ucid.go`:
`^([a-z]{2,8})_([0-9a-f]{4})_([0-9a-f]{4})_([0-9a-f]{3})([0-9a-f])_([0-9a-f]{4})$`. -/
def ucidParsePattern : List Tok :=
  [Tok.grp isLower 2 8, Tok.lit '_', Tok.grp isHex 4 4, Tok.lit '_', Tok.grp isHex 4 4,
   Tok.lit '_', Tok.grp isHex 3 3, Tok.grp isHex 1 1, Tok.lit '_', Tok.grp isHex 4 4]

/-! ## The decoder and the encoder -/

/-- Function `DataFromUCID` of `ucid.go`. -/
def DataFromUCID (ucid : String) : Data × Option GoError :=
  match FindStringSubmatch ucidParsePattern ucid with
  | none => (Data.zero, some ErrInvalidUCID)
  | some result =>
    let context := result.getD 1 ""
    let timestampString := result.getD 2 "" ++ result.getD 3 "" ++ result.getD 4 ""
    let randomString := result.getD 5 "" ++ result.getD 6 ""
    match ParseInt timestampString 16 64 with
    | .error err => (Data.zero, some err)
    | .ok timestamp =>
      match ParseInt randomString 16 32 with
      | .error err => (Data.zero, some err)
      | .ok random => (⟨context, timestamp, toInt32 random⟩, none)

/-- Method `Data.ToUCID` of `ucid.go`; the outer `none` is a panic of a slice
expression. -/
def Data.ToUCID (d : Data) : Option (String × Option GoError) :=
  if goLen d.Context < MinContextLen then some (ErrorUCID, some ErrContextTooShort)
  else if goLen d.Context > MaxContextLen then some (ErrorUCID, some ErrContextTooLong)
  else if d.Context.data.any (fun r => decide (r < 'a' ∨ r > 'z')) then
    some (ErrorUCID, some ErrContextOnlyLowerCaseLetter)
  else if d.Timestamp < 0 then some (ErrorUCID, some ErrTimestampNegative)
  else if d.Timestamp > MaxTimestamp then some (ErrorUCID, some ErrTimestampTooHigh)
  else if d.Random < 0 then some (ErrorUCID, some ErrRandomNegative)
  else if d.Random > MaxRandom then some (ErrorUCID, some ErrRandomTooHigh)
  else
    let hexPart := Sprintf_011x_05x d.Timestamp d.Random
    match sliceStr hexPart 0 4, sliceStr hexPart 4 8, sliceStr hexPart 8 12,
        sliceStr hexPart 12 16 with
    | some p0, some p1, some p2, some p3 =>
      some (stringsJoin [d.Context, p0, p1, p2, p3] " ", none)
    | _, _, _, _ => none

/-! ## The generator -/

/-- Go `a % b` on signed integers: the remainder of the division truncated toward zero,
which has the sign of `a`. -/
def goRem (a b : Int) : Int := Int.tmod a b

/-- Function `NewData` of `ucid.go`.  Its two reads of the environment are arguments:
`now` is the value of `time.Now().UnixMilli()` and `rnd` the value that the call
`RandomGenerator()` returns. -/
def NewData (context : String) (now rnd : Int) : Data :=
  ⟨context, goRem now (MaxTimestamp + 1), goRem rnd (MaxRandom + 1)⟩

/-- Function `New` of `ucid.go`. -/
def New (context : String) (now rnd : Int) : Option (String × Option GoError) :=
  (NewData context now rnd).ToUCID

/-- Value of a Go panic: the error that `MustNew` panics with, or the run-time error of a
slice expression out of range. -/
inductive Panic where
  | withError (err : GoError)
  | sliceBounds
  deriving DecidableEq, Repr

/-- Function `MustNew` of `ucid.go`: `Except.error` is a panic, `Except.ok` the value
returned. -/
def MustNew (context : String) (now rnd : Int) : Except Panic String :=
  match New context now rnd with
  | none => .error Panic.sliceBounds
  | some (_, some err) => .error (Panic.withError err)
  | some (ucid, none) => .ok ucid

/-! ## Specification-side notions -/

/-- Validity of a record as the specification words it: a context of 2 to 8 bytes, all
letters `a`-`z`, a timestamp in `[0, 0xFFFFFFFFFFF]` and a random in `[0, 0xFFFFF]`. -/
def Data.Valid (d : Data) : Prop :=
  2 ≤ goLen d.Context ∧ goLen d.Context ≤ 8 ∧ (∀ c ∈ d.Context.data, 'a' ≤ c ∧ c ≤ 'z') ∧
  0 ≤ d.Timestamp ∧ d.Timestamp ≤ 0xFFFFFFFFFFF ∧ 0 ≤ d.Random ∧ d.Random ≤ 0xFFFFF

instance (d : Data) : Decidable d.Valid := by
  unfold Data.Valid; infer_instance

/-- Language of an anchored pattern: `Lang toks cs caps` says that `cs` is the
concatenation of one piece per token, a literal for `Tok.lit` and between `lo` and `hi`
characters of the class for `Tok.grp`, and that `caps` lists the pieces of the groups. -/
def Lang : List Tok → List Char → List String → Prop
  | [], cs, caps => cs = [] ∧ caps = []
  | Tok.lit c :: ts, cs, caps => ∃ xs, cs = c :: xs ∧ Lang ts xs caps
  | Tok.grp cls lo hi :: ts, cs, caps =>
    ∃ g rest caps', cs = g ++ rest ∧ lo ≤ g.length ∧ g.length ≤ hi ∧
      (∀ x ∈ g, cls x = true) ∧ caps = String.mk g :: caps' ∧ Lang ts rest caps'

/-- A group of the token grammar: exactly 4 characters, all in `0-9a-f`. -/
def IsHexGroup (g : String) : Prop :=
  g.length = 4 ∧ ∀ x ∈ g.data, ('0' ≤ x ∧ x ≤ '9') ∨ ('a' ≤ x ∧ x ≤ 'f')

instance (g : String) : Decidable (IsHexGroup g) := by
  unfold IsHexGroup; infer_instance

/-- Token grammar as the specification words it: `c_g1_g2_g3_g4` with `c` of 2 to 8
characters all in `a-z`, each `gi` a group of 4 characters in `0-9a-f`, and nothing
before or after. -/
def Grammar (s : String) : Prop :=
  ∃ c g1 g2 g3 g4 : String,
    s = c ++ "_" ++ g1 ++ "_" ++ g2 ++ "_" ++ g3 ++ "_" ++ g4 ∧
    2 ≤ c.length ∧ c.length ≤ 8 ∧ (∀ x ∈ c.data, 'a' ≤ x ∧ x ≤ 'z') ∧
    IsHexGroup g1 ∧ IsHexGroup g2 ∧ IsHexGroup g3 ∧ IsHexGroup g4

/-- Value of one lowercase hex digit: its position in `0123456789abcdef`. -/
def hexDigitValue (c : Char) : Nat := "0123456789abcdef".data.indexOf c

/-- Base-16 value of a string of lowercase hex digits, most significant digit first. -/
def hexValue (l : List Char) : Nat := l.foldl (fun n c => 16 * n + hexDigitValue c) 0

/-- Part of a token before its first underscore. -/
def contextPart (s : String) : String := ⟨s.data.takeWhile (fun x => x != '_')⟩

/-- Hex digits of a token: what follows the first underscore, the underscores removed. -/
def hexStream (s : String) : List Char :=
  (s.data.dropWhile (fun x => x != '_')).filter (fun x => x != '_')

/-- Lowercase hex digit of a value below 16: the character at that position of
`0123456789abcdef`. -/
def hexDigitChar (d : Nat) : Char := "0123456789abcdef".data.getD d '0'

/-- Number `n` written as exactly `k` zero-padded lowercase hex digits, most significant
digit first. -/
def hexFixed : Nat → Nat → List Char
  | 0, _ => []
  | k + 1, n => hexFixed k (n / 16) ++ [hexDigitChar (n % 16)]

/-- Hex stream of a record as the specification words it: the timestamp as 11
zero-padded lowercase hex digits followed by the random as 5. -/
def Data.hexDigits (d : Data) : List Char :=
  hexFixed 11 d.Timestamp.toNat ++ hexFixed 5 d.Random.toNat

/-- Lexicographic order on lists of characters, by code point. -/
def lexLt : List Char → List Char → Bool
  | [], [] => false
  | [], _ :: _ => true
  | _ :: _, [] => false
  | a :: as, b :: bs => if a < b then true else if b < a then false else lexLt as bs

/-- Order `s < t` of Go strings, byte-wise lexicographic.  On the strings of the model it
compares code points, which is the order of the UTF-8 bytes. -/
def strLt (s t : String) : Bool := lexLt s.data t.data

/-! ## Lemmas on the encoder -/

theorem fmtHex_length_ge (wid : Nat) (v : Int) (hv : 0 ≤ v) : wid ≤ (fmtHex wid v).length := by
  have hneg : ¬ v < 0 := by omega
  simp only [fmtHex, hneg, decide_False, Bool.false_eq_true, if_false, List.length_append,
    List.length_replicate]
  omega

theorem Sprintf_length_ge (a b : Int) (ha : 0 ≤ a) (hb : 0 ≤ b) :
    16 ≤ (Sprintf_011x_05x a b).data.length := by
  have h1 := fmtHex_length_ge 11 a ha
  have h2 := fmtHex_length_ge 5 b hb
  simp only [Sprintf_011x_05x, List.length_append]
  omega

theorem sliceStr_eq_some (s : String) (lo hi : Nat) (h1 : lo ≤ hi) (h2 : hi ≤ s.data.length) :
    sliceStr s lo hi = some ⟨(s.data.drop lo).take (hi - lo)⟩ := by
  unfold sliceStr
  rw [if_pos ⟨h1, h2⟩]

/-- The condition of the range loop of `ToUCID` is the negation of "every character is
a letter `a`-`z`". -/
theorem any_outside_iff (l : List Char) :
    l.any (fun r => decide (r < 'a' ∨ r > 'z')) = true ↔ ¬ ∀ c ∈ l, 'a' ≤ c ∧ c ≤ 'z' := by
  simp only [List.any_eq_true, decide_eq_true_eq, not_forall]
  constructor
  · rintro ⟨c, hc, h⟩
    refine ⟨c, hc, ?_⟩
    rintro ⟨h1, h2⟩
    have h1' : 'a'.toNat ≤ c.toNat := h1
    have h2' : c.toNat ≤ 'z'.toNat := h2
    rcases h with h | h
    · have : c.toNat < 'a'.toNat := h
      omega
    · have : 'z'.toNat < c.toNat := h
      omega
  · rintro ⟨c, hc, h⟩
    refine ⟨c, hc, ?_⟩
    by_contra hn
    apply h
    constructor
    · show 'a'.toNat ≤ c.toNat
      have : ¬ c.toNat < 'a'.toNat := fun h' => hn (Or.inl h')
      omega
    · show c.toNat ≤ 'z'.toNat
      have : ¬ 'z'.toNat < c.toNat := fun h' => hn (Or.inr h')
      omega

/-- Result of the encoder on a valid record: no panic, no error, and the five parts
joined by the separator of the source. -/
theorem ToUCID_of_valid (d : Data) (h : d.Valid) :
    d.ToUCID = some (stringsJoin
      [d.Context,
       ⟨((Sprintf_011x_05x d.Timestamp d.Random).data.drop 0).take (4 - 0)⟩,
       ⟨((Sprintf_011x_05x d.Timestamp d.Random).data.drop 4).take (8 - 4)⟩,
       ⟨((Sprintf_011x_05x d.Timestamp d.Random).data.drop 8).take (12 - 8)⟩,
       ⟨((Sprintf_011x_05x d.Timestamp d.Random).data.drop 12).take (16 - 12)⟩] " ", none) := by
  obtain ⟨h1, h2, h3, h4, h5, h6, h7⟩ := h
  have hlen := Sprintf_length_ge d.Timestamp d.Random h4 h6
  have hany : ¬ (d.Context.data.any (fun r => decide (r < 'a' ∨ r > 'z')) = true) := by
    rw [any_outside_iff]; exact fun hn => hn h3
  have c1 : ¬ goLen d.Context < MinContextLen := by simp only [MinContextLen]; omega
  have c2 : ¬ goLen d.Context > MaxContextLen := by simp only [MaxContextLen]; omega
  have c4 : ¬ d.Timestamp < 0 := by omega
  have c5 : ¬ d.Timestamp > MaxTimestamp := by simp only [MaxTimestamp]; omega
  have c6 : ¬ d.Random < 0 := by omega
  have c7 : ¬ d.Random > MaxRandom := by simp only [MaxRandom]; omega
  unfold Data.ToUCID
  rw [if_neg c1, if_neg c2, if_neg hany, if_neg c4, if_neg c5, if_neg c6, if_neg c7]
  simp only []
  rw [sliceStr_eq_some _ 0 4 (by omega) (by omega), sliceStr_eq_some _ 4 8 (by omega) (by omega),
    sliceStr_eq_some _ 8 12 (by omega) (by omega), sliceStr_eq_some _ 12 16 (by omega) (by omega)]

/-- The encoder never panics: it returns a string with an error, or a string without. -/
theorem ToUCID_error_cases (d : Data) :
    (goLen d.Context < 2 ∧ d.ToUCID = some (ErrorUCID, some ErrContextTooShort)) ∨
    (¬ goLen d.Context < 2 ∧ goLen d.Context > 8 ∧
      d.ToUCID = some (ErrorUCID, some ErrContextTooLong)) ∨
    (¬ goLen d.Context < 2 ∧ ¬ goLen d.Context > 8 ∧ (¬ ∀ c ∈ d.Context.data, 'a' ≤ c ∧ c ≤ 'z') ∧
      d.ToUCID = some (ErrorUCID, some ErrContextOnlyLowerCaseLetter)) ∨
    (¬ goLen d.Context < 2 ∧ ¬ goLen d.Context > 8 ∧ (∀ c ∈ d.Context.data, 'a' ≤ c ∧ c ≤ 'z') ∧
      d.Timestamp < 0 ∧ d.ToUCID = some (ErrorUCID, some ErrTimestampNegative)) ∨
    (¬ goLen d.Context < 2 ∧ ¬ goLen d.Context > 8 ∧ (∀ c ∈ d.Context.data, 'a' ≤ c ∧ c ≤ 'z') ∧
      ¬ d.Timestamp < 0 ∧ d.Timestamp > 0xFFFFFFFFFFF ∧
      d.ToUCID = some (ErrorUCID, some ErrTimestampTooHigh)) ∨
    (¬ goLen d.Context < 2 ∧ ¬ goLen d.Context > 8 ∧ (∀ c ∈ d.Context.data, 'a' ≤ c ∧ c ≤ 'z') ∧
      ¬ d.Timestamp < 0 ∧ ¬ d.Timestamp > 0xFFFFFFFFFFF ∧ d.Random < 0 ∧
      d.ToUCID = some (ErrorUCID, some ErrRandomNegative)) ∨
    (¬ goLen d.Context < 2 ∧ ¬ goLen d.Context > 8 ∧ (∀ c ∈ d.Context.data, 'a' ≤ c ∧ c ≤ 'z') ∧
      ¬ d.Timestamp < 0 ∧ ¬ d.Timestamp > 0xFFFFFFFFFFF ∧ ¬ d.Random < 0 ∧ d.Random > 0xFFFFF ∧
      d.ToUCID = some (ErrorUCID, some ErrRandomTooHigh)) ∨
    (d.Valid ∧ ∃ s, d.ToUCID = some (s, none)) := by
  by_cases c1 : goLen d.Context < 2
  · left; exact ⟨c1, by simp [Data.ToUCID, MinContextLen, c1]⟩
  right
  by_cases c2 : goLen d.Context > 8
  · left; exact ⟨c1, c2, by simp [Data.ToUCID, MinContextLen, MaxContextLen, c1, c2]⟩
  right
  by_cases c3 : ∀ c ∈ d.Context.data, 'a' ≤ c ∧ c ≤ 'z'
  swap
  · left
    refine ⟨c1, c2, c3, ?_⟩
    have hany := (any_outside_iff d.Context.data).2 c3
    unfold Data.ToUCID
    rw [if_neg (by simpa [MinContextLen] using c1), if_neg (by simpa [MaxContextLen] using c2),
      if_pos hany]
  have hany : ¬ (d.Context.data.any (fun r => decide (r < 'a' ∨ r > 'z')) = true) := by
    rw [any_outside_iff]; exact fun hn => hn c3
  right
  by_cases c4 : d.Timestamp < 0
  · left
    refine ⟨c1, c2, c3, c4, ?_⟩
    unfold Data.ToUCID
    rw [if_neg (by simpa [MinContextLen] using c1), if_neg (by simpa [MaxContextLen] using c2),
      if_neg hany, if_pos c4]
  right
  by_cases c5 : d.Timestamp > 0xFFFFFFFFFFF
  · left
    refine ⟨c1, c2, c3, c4, c5, ?_⟩
    unfold Data.ToUCID
    rw [if_neg (by simpa [MinContextLen] using c1), if_neg (by simpa [MaxContextLen] using c2),
      if_neg hany, if_neg c4, if_pos (by simpa [MaxTimestamp] using c5)]
  right
  by_cases c6 : d.Random < 0
  · left
    refine ⟨c1, c2, c3, c4, c5, c6, ?_⟩
    unfold Data.ToUCID
    rw [if_neg (by simpa [MinContextLen] using c1), if_neg (by simpa [MaxContextLen] using c2),
      if_neg hany, if_neg c4, if_neg (by simpa [MaxTimestamp] using c5), if_pos c6]
  right
  by_cases c7 : d.Random > 0xFFFFF
  · left
    refine ⟨c1, c2, c3, c4, c5, c6, c7, ?_⟩
    unfold Data.ToUCID
    rw [if_neg (by simpa [MinContextLen] using c1), if_neg (by simpa [MaxContextLen] using c2),
      if_neg hany, if_neg c4, if_neg (by simpa [MaxTimestamp] using c5), if_neg c6,
      if_pos (by simpa [MaxRandom] using c7)]
  right
  have hv : d.Valid := ⟨by omega, by omega, c3, by omega, by omega, by omega, by omega⟩
  exact ⟨hv, _, ToUCID_of_valid d hv⟩

/-! ## Lemmas on `fmtHex` -/

theorem ldigit_eq_hexDigitChar (u : Nat) (h : u < 16) : ldigit u = hexDigitChar (u % 16) := by
  interval_cases u <;> rfl

theorem hexFixed_length (k n : Nat) : (hexFixed k n).length = k := by
  induction k generalizing n with
  | zero => rfl
  | succ k ih => simp [hexFixed, ih]

/-- The digit loop with enough rounds writes the digits of `u`, as few as `u` needs and
at least one, in front of the buffer. -/
theorem hexLoop_eq (fuel : Nat) :
    ∀ (u : Nat) (buf : List Char), u < 16 ^ (fuel + 1) →
      ∃ m, 1 ≤ m ∧ (m = 1 ∨ 16 ^ (m - 1) ≤ u) ∧ u < 16 ^ m ∧
        hexLoop (fuel + 1) u buf = hexFixed m u ++ buf := by
  induction fuel with
  | zero =>
    intro u buf hu
    have hu' : u < 16 := by simpa using hu
    refine ⟨1, le_refl _, Or.inl rfl, by simpa using hu', ?_⟩
    have hn : ¬ 16 ≤ u := by omega
    simp only [hexLoop, if_neg hn, hexFixed, List.nil_append, List.singleton_append]
    rw [ldigit_eq_hexDigitChar u hu']
  | succ fuel ih =>
    intro u buf hu
    by_cases h16 : 16 ≤ u
    · have hdiv : u / 16 < 16 ^ (fuel + 1) := by
        rw [Nat.div_lt_iff_lt_mul (by norm_num)]
        calc u < 16 ^ (fuel + 1 + 1) := hu
          _ = 16 ^ (fuel + 1) * 16 := by ring
      obtain ⟨m, m1, m2, m3, m4⟩ := ih (u / 16) (ldigit (u % 16) :: buf) hdiv
      refine ⟨m + 1, by omega, Or.inr ?_, ?_, ?_⟩
      · rw [Nat.add_sub_cancel]
        rcases m2 with rfl | m2
        · simpa using h16
        · obtain ⟨m', rfl⟩ : ∃ m', m = m' + 1 := ⟨m - 1, by omega⟩
          rw [Nat.add_sub_cancel] at m2
          calc 16 ^ (m' + 1) = 16 ^ m' * 16 := by ring
            _ ≤ u / 16 * 16 := Nat.mul_le_mul_right _ m2
            _ ≤ u := Nat.div_mul_le_self u 16
      · have : u < 16 ^ m * 16 := by
          rw [← Nat.div_lt_iff_lt_mul (by norm_num)]; exact m3
        calc u < 16 ^ m * 16 := this
          _ = 16 ^ (m + 1) := by ring
      · rw [hexLoop, if_pos h16, m4, hexFixed,
          ldigit_eq_hexDigitChar (u % 16) (Nat.mod_lt _ (by norm_num)), Nat.mod_mod]
        simp
    · have hu' : u < 16 := by omega
      refine ⟨1, le_refl _, Or.inl rfl, by simpa using hu', ?_⟩
      simp only [hexLoop, if_neg h16, hexFixed, List.nil_append, List.singleton_append]
      rw [ldigit_eq_hexDigitChar u hu']

theorem hexFixed_zero (k : Nat) : hexFixed k 0 = List.replicate k '0' := by
  induction k with
  | zero => rfl
  | succ k ih =>
    rw [hexFixed, Nat.zero_div, ih, List.replicate_succ']
    rfl

/-- Zero padding in front of the `m` digits of a number below `16 ^ m` gives its `k`
digits. -/
theorem replicate_append_hexFixed (m : Nat) :
    ∀ (k u : Nat), m ≤ k → u < 16 ^ m →
      List.replicate (k - m) '0' ++ hexFixed m u = hexFixed k u := by
  induction m with
  | zero =>
    intro k u _ hu
    have hu0 : u = 0 := by simpa using hu
    subst hu0
    simp [hexFixed, hexFixed_zero]
  | succ m ih =>
    intro k u hk hu
    obtain ⟨k', rfl⟩ : ∃ k', k = k' + 1 := ⟨k - 1, by omega⟩
    have hdiv : u / 16 < 16 ^ m := by
      rw [Nat.div_lt_iff_lt_mul (by norm_num)]
      calc u < 16 ^ (m + 1) := hu
        _ = 16 ^ m * 16 := by ring
    have := ih k' (u / 16) (by omega) hdiv
    rw [hexFixed, hexFixed, ← this, Nat.add_sub_add_right, List.append_assoc]

/-- For a value in `[0, 16 ^ wid)` and a width from 1 to 16, the verb `%0Wx` writes
exactly the `wid` zero-padded lowercase hex digits of the value. -/
theorem fmtHex_eq_hexFixed (wid : Nat) (v : Int) (h1 : 1 ≤ wid) (h16 : wid ≤ 16)
    (hv : 0 ≤ v) (hlt : v < 16 ^ wid) : fmtHex wid v = hexFixed wid v.toNat := by
  have hneg : ¬ v < 0 := by omega
  have hnat : v.natAbs = v.toNat := by omega
  have hu : v.toNat < 16 ^ wid := by
    have : ((v.toNat : Nat) : Int) < ((16 ^ wid : Nat) : Int) := by
      rw [Int.toNat_of_nonneg hv]; exact_mod_cast hlt
    exact_mod_cast this
  have hu16 : v.toNat < 16 ^ (15 + 1) :=
    lt_of_lt_of_le hu (Nat.pow_le_pow_right (by norm_num) h16)
  obtain ⟨m, m1, m2, m3, m4⟩ := hexLoop_eq 15 v.toNat [] hu16
  have hmw : m ≤ wid := by
    by_contra hc
    have hwm : wid ≤ m - 1 := by omega
    rcases m2 with rfl | m2
    · omega
    · have hpow : 16 ^ wid ≤ 16 ^ (m - 1) := Nat.pow_le_pow_right (by norm_num) hwm
      omega
  simp only [fmtHex, hneg, decide_False, Bool.false_eq_true, if_false, hnat]
  rw [show (16 : Nat) = 15 + 1 from rfl, m4, List.append_nil, hexFixed_length]
  exact replicate_append_hexFixed m wid v.toNat hmw m3

/-! ## Lemmas on characters -/

theorem char_eq_ofNat (c : Char) (n : Nat) (h : c.toNat = n) : c = Char.ofNat n := by
  subst h; simp [Char.ofNat_toNat]

theorem isLower_iff (c : Char) : isLower c = true ↔ 'a' ≤ c ∧ c ≤ 'z' := by
  simp [isLower]

theorem isHex_iff (c : Char) :
    isHex c = true ↔ ('0' ≤ c ∧ c ≤ '9') ∨ ('a' ≤ c ∧ c ≤ 'f') := by
  simp [isHex]

/-- A property of the characters with code 48 to 57 and 97 to 102 holds of every
character of the class `[0-9a-f]`. -/
theorem isHex_forall (P : Char → Prop)
    (hd : ∀ n, 48 ≤ n → n ≤ 57 → P (Char.ofNat n))
    (hl : ∀ n, 97 ≤ n → n ≤ 102 → P (Char.ofNat n))
    (c : Char) (h : isHex c = true) : P c := by
  rw [isHex_iff] at h
  rcases h with ⟨h1, h2⟩ | ⟨h1, h2⟩
  · have h1' : 48 ≤ c.toNat := h1
    have h2' : c.toNat ≤ 57 := h2
    rw [char_eq_ofNat c c.toNat rfl]
    exact hd _ h1' h2'
  · have h1' : 97 ≤ c.toNat := h1
    have h2' : c.toNat ≤ 102 := h2
    rw [char_eq_ofNat c c.toNat rfl]
    exact hl _ h1' h2'

theorem isHex_facts (c : Char) (h : isHex c = true) :
    c ≠ '_' ∧ c ≠ '+' ∧ c ≠ '-' ∧ digitVal c = some (hexDigitValue c) ∧ hexDigitValue c < 16 := by
  revert c
  apply isHex_forall
  · intro n h1 h2
    interval_cases n <;> decide
  · intro n h1 h2
    interval_cases n <;> decide

theorem isLower_ne_underscore (c : Char) (h : isLower c = true) : c ≠ '_' := by
  rw [isLower_iff] at h
  intro hc
  subst hc
  exact absurd h (by decide)

theorem utf8Size_of_le_z (c : Char) (h : c ≤ 'z') : c.utf8Size = 1 := by
  have h1 : c.val.toNat ≤ 122 := h
  have h2 : c.val ≤ 127 := by
    show c.val.toNat ≤ 127
    omega
  simp [Char.utf8Size, h2]

theorem utf8ByteSize_go_lower (l : List Char) (h : ∀ x ∈ l, 'a' ≤ x ∧ x ≤ 'z') :
    String.utf8ByteSize.go l = l.length := by
  induction l with
  | nil => rfl
  | cons a l ih =>
    have ha := utf8Size_of_le_z a (h a (List.mem_cons_self a l)).2
    have := ih fun x hx => h x (List.mem_cons_of_mem a hx)
    simp only [String.utf8ByteSize.go, List.length_cons]
    omega

/-- On a string of letters `a`-`z` the byte length is the number of characters. -/
theorem goLen_lower (l : List Char) (h : ∀ x ∈ l, 'a' ≤ x ∧ x ≤ 'z') :
    goLen ⟨l⟩ = l.length := by
  simp only [goLen, String.utf8ByteSize]
  exact utf8ByteSize_go_lower l h

/-! ## Lemmas on the matcher -/

theorem mem_counts (lo hi n : Nat) : n ∈ counts lo hi ↔ lo ≤ n ∧ n ≤ hi := by
  simp only [counts, List.mem_reverse, List.mem_range'_1]
  omega

/-- Soundness of the matcher: a match is a word of the language, with its captures. -/
theorem matchToks_sound (ts : List Tok) :
    ∀ (cs : List Char) (caps : List String), matchToks ts cs = some caps → Lang ts cs caps := by
  induction ts with
  | nil =>
    intro cs caps h
    cases cs with
    | nil => simp [matchToks] at h; simp [Lang, h]
    | cons x xs => simp [matchToks] at h
  | cons t ts ih =>
    intro cs caps h
    cases t with
    | lit c =>
      cases cs with
      | nil => simp [matchToks] at h
      | cons x xs =>
        simp only [matchToks] at h
        by_cases hx : x = c
        · rw [if_pos hx] at h
          exact ⟨xs, by rw [hx], ih xs caps h⟩
        · rw [if_neg hx] at h
          exact absurd h (by simp)
    | grp cls lo hi =>
      simp only [matchToks] at h
      obtain ⟨n, hn, hf⟩ := List.exists_of_findSome?_eq_some h
      rw [mem_counts] at hn
      by_cases hc : n ≤ cs.length ∧ (cs.take n).all cls = true
      · rw [if_pos hc] at hf
        cases hm : matchToks ts (cs.drop n) with
        | none => rw [hm] at hf; simp at hf
        | some caps' =>
          rw [hm] at hf
          simp only [Option.map_some', Option.some.injEq] at hf
          refine ⟨cs.take n, cs.drop n, caps', (List.take_append_drop n cs).symm, ?_, ?_, ?_,
            hf.symm, ih _ _ hm⟩
          · rw [List.length_take]; omega
          · rw [List.length_take]; omega
          · exact fun x hx => (List.all_eq_true.1 hc.2) x hx
      · rw [if_neg hc] at hf
        exact absurd hf (by simp)

/-- Completeness of the matcher: on a word of the language it finds a match. -/
theorem matchToks_complete (ts : List Tok) :
    ∀ (cs : List Char) (caps : List String), Lang ts cs caps → (matchToks ts cs).isSome = true := by
  induction ts with
  | nil =>
    intro cs caps h
    simp only [Lang] at h
    simp [matchToks, h.1]
  | cons t ts ih =>
    intro cs caps h
    cases t with
    | lit c =>
      obtain ⟨xs, hcs, hl⟩ := h
      subst hcs
      simp only [matchToks, if_true]
      exact ih xs caps hl
    | grp cls lo hi =>
      obtain ⟨g, rest, caps', hcs, h1, h2, hall, _, hl⟩ := h
      subst hcs
      simp only [matchToks]
      rw [List.findSome?_isSome_iff]
      refine ⟨g.length, (mem_counts lo hi g.length).2 ⟨h1, h2⟩, ?_⟩
      have ht : (g ++ rest).take g.length = g := by simp
      have hd : (g ++ rest).drop g.length = rest := by simp
      have hc : g.length ≤ (g ++ rest).length ∧ ((g ++ rest).take g.length).all cls = true := by
        refine ⟨by simp, ?_⟩
        rw [ht]
        exact List.all_eq_true.2 hall
      rw [if_pos hc, hd]
      have := ih rest caps' hl
      cases hm : matchToks ts rest with
      | none => rw [hm] at this; simp at this
      | some r => simp

/-! ## Lemmas on `ParseInt` -/

theorem foldl_hex_lt (l : List Char) (hl : ∀ x ∈ l, isHex x = true) :
    ∀ n : Nat, l.foldl (fun n c => 16 * n + hexDigitValue c) n < (n + 1) * 16 ^ l.length := by
  induction l with
  | nil => intro n; simp
  | cons c cs ih =>
    intro n
    have hd := (isHex_facts c (hl c (List.mem_cons_self c cs))).2.2.2.2
    have h := ih (fun x hx => hl x (List.mem_cons_of_mem c hx)) (16 * n + hexDigitValue c)
    simp only [List.foldl_cons, List.length_cons]
    calc List.foldl (fun n c => 16 * n + hexDigitValue c) (16 * n + hexDigitValue c) cs
        < (16 * n + hexDigitValue c + 1) * 16 ^ cs.length := h
      _ ≤ ((n + 1) * 16) * 16 ^ cs.length := Nat.mul_le_mul_right _ (by omega)
      _ = (n + 1) * 16 ^ (cs.length + 1) := by ring

/-- A string of lowercase hex digits has a value below `16 ^ length`. -/
theorem hexValue_lt (l : List Char) (hl : ∀ x ∈ l, isHex x = true) :
    hexValue l < 16 ^ l.length := by
  have := foldl_hex_lt l hl 0
  simpa [hexValue] using this

theorem parseUintLoop_hex (bits : Nat) (l : List Char) (hl : ∀ x ∈ l, isHex x = true) :
    ∀ n : Nat, (n + 1) * 16 ^ l.length ≤ 2 ^ bits →
      parseUintLoop 16 bits l n = .ok (l.foldl (fun n c => 16 * n + hexDigitValue c) n) := by
  induction l with
  | nil => intro n _; rfl
  | cons c cs ih =>
    intro n hb
    obtain ⟨_, _, _, hdv, hd⟩ := isHex_facts c (hl c (List.mem_cons_self c cs))
    have hpos : 0 < 16 ^ cs.length := Nat.pow_pos (by norm_num)
    have hb' : (n * 16 + hexDigitValue c + 1) * 16 ^ cs.length ≤ 2 ^ bits :=
      calc (n * 16 + hexDigitValue c + 1) * 16 ^ cs.length
          ≤ ((n + 1) * 16) * 16 ^ cs.length := Nat.mul_le_mul_right _ (by omega)
        _ = (n + 1) * 16 ^ (cs.length + 1) := by ring
        _ ≤ 2 ^ bits := hb
    have hsmall : n * 16 + hexDigitValue c + 1 ≤ 2 ^ bits :=
      le_trans (Nat.le_mul_of_pos_right _ hpos) hb'
    have h1 : ¬ 16 ≤ hexDigitValue c := by omega
    have h2 : ¬ 2 ^ bits - 1 < n * 16 + hexDigitValue c := by omega
    simp only [parseUintLoop, hdv, List.foldl_cons]
    rw [if_neg h1, if_neg h2, ih (fun x hx => hl x (List.mem_cons_of_mem c hx)) _ hb']
    rw [Nat.mul_comm n 16]

/-- On a non-empty string of lowercase hex digits short enough for the bit size,
`ParseInt` in base 16 succeeds with the base-16 value. -/
theorem ParseInt_hex (bits : Nat) (l : List Char) (hne : l ≠ [])
    (hl : ∀ x ∈ l, isHex x = true) (hb : 16 ^ l.length ≤ 2 ^ (bits - 1)) :
    ParseInt ⟨l⟩ 16 bits = .ok (hexValue l : Int) := by
  cases l with
  | nil => exact absurd rfl hne
  | cons c cs =>
    obtain ⟨_, hplus, hminus, _, _⟩ := isHex_facts c (hl c (List.mem_cons_self c cs))
    have hle : 2 ^ (bits - 1) ≤ 2 ^ bits := Nat.pow_le_pow_right (by norm_num) (Nat.sub_le _ _)
    have hu : ParseUint ⟨c :: cs⟩ 16 bits = .ok (hexValue (c :: cs)) := by
      simp only [ParseUint, List.isEmpty_cons, Bool.false_eq_true, if_false]
      exact parseUintLoop_hex bits (c :: cs) hl 0 (by simpa using le_trans hb hle)
    have hlt := hexValue_lt (c :: cs) hl
    have hcut : ¬ 2 ^ (bits - 1) ≤ hexValue (c :: cs) := by omega
    simp only [ParseInt, hplus, hminus, or_self, if_false, decide_False, hu]
    simp [hcut]

/-! ## Lemmas on the decoder -/

theorem mk_append_mk (a b : List Char) : String.mk a ++ String.mk b = String.mk (a ++ b) := rfl

/-- Shape of a match of `ucidParsePattern`: the six captured pieces and the text. -/
theorem match_ucid_shape (cs : List Char) (caps : List String)
    (h : matchToks ucidParsePattern cs = some caps) :
    ∃ c g1 g2 g3a g3b g4 : List Char,
      cs = c ++ '_' :: (g1 ++ '_' :: (g2 ++ '_' :: (g3a ++ (g3b ++ '_' :: g4)))) ∧
      caps = [⟨c⟩, ⟨g1⟩, ⟨g2⟩, ⟨g3a⟩, ⟨g3b⟩, ⟨g4⟩] ∧
      2 ≤ c.length ∧ c.length ≤ 8 ∧ (∀ x ∈ c, isLower x = true) ∧
      g1.length = 4 ∧ g2.length = 4 ∧ g3a.length = 3 ∧ g3b.length = 1 ∧ g4.length = 4 ∧
      (∀ x ∈ g1, isHex x = true) ∧ (∀ x ∈ g2, isHex x = true) ∧ (∀ x ∈ g3a, isHex x = true) ∧
      (∀ x ∈ g3b, isHex x = true) ∧ (∀ x ∈ g4, isHex x = true) := by
  have hl := matchToks_sound ucidParsePattern cs caps h
  simp only [ucidParsePattern, Lang] at hl
  obtain ⟨c, r0, k0, e0, c1, c2, cl, ek0, x1, ex1, g1, r1, k1, e1, a1, b1, l1, ek1,
    x2, ex2, g2, r2, k2, e2, a2, b2, l2, ek2, x3, ex3, g3a, r3, k3, e3, a3, b3, l3, ek3,
    g3b, r4, k4, e4, a4, b4, l4, ek4, x5, ex5, g4, r5, k5, e5, a5, b5, l5, ek5, er, ek⟩ := hl
  subst er ek ek5 ek4 ek3 ek2 ek1 ek0
  subst e5 ex5 e4 e3 ex3 e2 ex2 e1 ex1 e0
  refine ⟨c, g1, g2, g3a, g3b, g4, by simp, rfl, c1, c2, cl, by omega, by omega, by omega,
    by omega, by omega, l1, l2, l3, l4, l5⟩

/-- A text of the shape of `ucidParsePattern` is matched. -/
theorem match_ucid_of_shape (c g1 g2 g3a g3b g4 : List Char)
    (c1 : 2 ≤ c.length) (c2 : c.length ≤ 8) (cl : ∀ x ∈ c, isLower x = true)
    (a1 : g1.length = 4) (a2 : g2.length = 4) (a3 : g3a.length = 3) (a4 : g3b.length = 1)
    (a5 : g4.length = 4)
    (l1 : ∀ x ∈ g1, isHex x = true) (l2 : ∀ x ∈ g2, isHex x = true)
    (l3 : ∀ x ∈ g3a, isHex x = true) (l4 : ∀ x ∈ g3b, isHex x = true)
    (l5 : ∀ x ∈ g4, isHex x = true) :
    (matchToks ucidParsePattern
      (c ++ '_' :: (g1 ++ '_' :: (g2 ++ '_' :: (g3a ++ (g3b ++ '_' :: g4)))))).isSome = true := by
  apply matchToks_complete ucidParsePattern _ [⟨c⟩, ⟨g1⟩, ⟨g2⟩, ⟨g3a⟩, ⟨g3b⟩, ⟨g4⟩]
  simp only [ucidParsePattern, Lang]
  exact ⟨c, _, _, rfl, c1, c2, cl, rfl, _, rfl, g1, _, _, rfl, by omega, by omega, l1, rfl,
    _, rfl, g2, _, _, rfl, by omega, by omega, l2, rfl, _, rfl, g3a, _, _, rfl, by omega,
    by omega, l3, rfl, g3b, _, _, rfl, by omega, by omega, l4, rfl, _, rfl, g4, [], _,
    by simp, by omega, by omega, l5, rfl, rfl, rfl⟩

/-- The decoder on a matched text: both conversions succeed, the narrowing to `int32`
changes nothing, and the record is built from the captured pieces. -/
theorem DataFromUCID_of_match (s : String) (c g1 g2 g3a g3b g4 : List Char)
    (h : matchToks ucidParsePattern s.data = some [⟨c⟩, ⟨g1⟩, ⟨g2⟩, ⟨g3a⟩, ⟨g3b⟩, ⟨g4⟩])
    (a1 : g1.length = 4) (a2 : g2.length = 4) (a3 : g3a.length = 3) (a4 : g3b.length = 1)
    (a5 : g4.length = 4)
    (l1 : ∀ x ∈ g1, isHex x = true) (l2 : ∀ x ∈ g2, isHex x = true)
    (l3 : ∀ x ∈ g3a, isHex x = true) (l4 : ∀ x ∈ g3b, isHex x = true)
    (l5 : ∀ x ∈ g4, isHex x = true) :
    ParseInt ⟨g1 ++ g2 ++ g3a⟩ 16 64 = .ok (hexValue (g1 ++ g2 ++ g3a) : Int) ∧
    ParseInt ⟨g3b ++ g4⟩ 16 32 = .ok (hexValue (g3b ++ g4) : Int) ∧
    toInt32 (hexValue (g3b ++ g4) : Int) = (hexValue (g3b ++ g4) : Int) ∧
    hexValue (g1 ++ g2 ++ g3a) < 16 ^ 11 ∧ hexValue (g3b ++ g4) < 16 ^ 5 ∧
    DataFromUCID s =
      (⟨⟨c⟩, (hexValue (g1 ++ g2 ++ g3a) : Int), (hexValue (g3b ++ g4) : Int)⟩, none) := by
  have ht : ∀ x ∈ g1 ++ g2 ++ g3a, isHex x = true := by
    intro x hx
    simp only [List.mem_append] at hx
    rcases hx with (hx | hx) | hx
    · exact l1 x hx
    · exact l2 x hx
    · exact l3 x hx
  have hr : ∀ x ∈ g3b ++ g4, isHex x = true := by
    intro x hx
    simp only [List.mem_append] at hx
    rcases hx with hx | hx
    · exact l4 x hx
    · exact l5 x hx
  have hlt : (g1 ++ g2 ++ g3a).length = 11 := by simp only [List.length_append]; omega
  have hlr : (g3b ++ g4).length = 5 := by simp only [List.length_append]; omega
  have hnt : g1 ++ g2 ++ g3a ≠ [] := by
    intro h0; rw [h0] at hlt; simp at hlt
  have hnr : g3b ++ g4 ≠ [] := by
    intro h0; rw [h0] at hlr; simp at hlr
  have pt := ParseInt_hex 64 _ hnt ht (by rw [hlt]; norm_num)
  have pr := ParseInt_hex 32 _ hnr hr (by rw [hlr]; norm_num)
  have vt := hexValue_lt _ ht
  have vr := hexValue_lt _ hr
  rw [hlt] at vt
  rw [hlr] at vr
  have h32 : toInt32 (hexValue (g3b ++ g4) : Int) = (hexValue (g3b ++ g4) : Int) := by
    unfold toInt32
    norm_num at vr
    omega
  refine ⟨pt, pr, h32, vt, vr, ?_⟩
  simp only [DataFromUCID, FindStringSubmatch, h, Option.map_some', List.getD_cons_succ,
    List.getD_cons_zero, mk_append_mk, pt, pr, h32]

/-- The decoder on a text the pattern does not match. -/
theorem DataFromUCID_of_no_match (s : String) (h : matchToks ucidParsePattern s.data = none) :
    DataFromUCID s = (Data.zero, some ErrInvalidUCID) := by
  simp only [DataFromUCID, FindStringSubmatch, h, Option.map_none']

/-- The decoder on a matched text, with the pieces named. -/
theorem DataFromUCID_of_some (s : String) (caps : List String)
    (h : matchToks ucidParsePattern s.data = some caps) :
    ∃ c g1 g2 g3a g3b g4 : List Char,
      s.data = c ++ '_' :: (g1 ++ '_' :: (g2 ++ '_' :: (g3a ++ (g3b ++ '_' :: g4)))) ∧
      caps = [⟨c⟩, ⟨g1⟩, ⟨g2⟩, ⟨g3a⟩, ⟨g3b⟩, ⟨g4⟩] ∧
      2 ≤ c.length ∧ c.length ≤ 8 ∧ (∀ x ∈ c, isLower x = true) ∧
      g1.length = 4 ∧ g2.length = 4 ∧ g3a.length = 3 ∧ g3b.length = 1 ∧ g4.length = 4 ∧
      (∀ x ∈ g1, isHex x = true) ∧ (∀ x ∈ g2, isHex x = true) ∧ (∀ x ∈ g3a, isHex x = true) ∧
      (∀ x ∈ g3b, isHex x = true) ∧ (∀ x ∈ g4, isHex x = true) ∧
      ParseInt ⟨g1 ++ g2 ++ g3a⟩ 16 64 = .ok (hexValue (g1 ++ g2 ++ g3a) : Int) ∧
      ParseInt ⟨g3b ++ g4⟩ 16 32 = .ok (hexValue (g3b ++ g4) : Int) ∧
      toInt32 (hexValue (g3b ++ g4) : Int) = (hexValue (g3b ++ g4) : Int) ∧
      hexValue (g1 ++ g2 ++ g3a) < 16 ^ 11 ∧ hexValue (g3b ++ g4) < 16 ^ 5 ∧
      DataFromUCID s =
        (⟨⟨c⟩, (hexValue (g1 ++ g2 ++ g3a) : Int), (hexValue (g3b ++ g4) : Int)⟩, none) := by
  obtain ⟨c, g1, g2, g3a, g3b, g4, hcs, hcaps, c1, c2, cl, a1, a2, a3, a4, a5, l1, l2, l3, l4,
    l5⟩ := match_ucid_shape s.data caps h
  rw [hcaps] at h
  obtain ⟨p1, p2, p3, p4, p5, p6⟩ :=
    DataFromUCID_of_match s c g1 g2 g3a g3b g4 h a1 a2 a3 a4 a5 l1 l2 l3 l4 l5
  exact ⟨c, g1, g2, g3a, g3b, g4, hcs, hcaps, c1, c2, cl, a1, a2, a3, a4, a5, l1, l2, l3, l4,
    l5, p1, p2, p3, p4, p5, p6⟩

/-- A matched text is a token of the grammar. -/
theorem Grammar_of_match (s : String) (caps : List String)
    (h : matchToks ucidParsePattern s.data = some caps) : Grammar s := by
  obtain ⟨c, g1, g2, g3a, g3b, g4, hcs, _, c1, c2, cl, a1, a2, a3, a4, a5, l1, l2, l3, l4,
    l5⟩ := match_ucid_shape s.data caps h
  refine ⟨⟨c⟩, ⟨g1⟩, ⟨g2⟩, ⟨g3a ++ g3b⟩, ⟨g4⟩, ?_, c1, c2, ?_, ⟨a1, ?_⟩, ⟨a2, ?_⟩, ⟨?_, ?_⟩,
    ⟨a5, ?_⟩⟩
  · apply String.ext
    rw [hcs]
    simp [String.data_append]
  · exact fun x hx => (isLower_iff x).1 (cl x hx)
  · exact fun x hx => (isHex_iff x).1 (l1 x hx)
  · exact fun x hx => (isHex_iff x).1 (l2 x hx)
  · show (g3a ++ g3b).length = 4
    rw [List.length_append]; omega
  · intro x hx
    rcases List.mem_append.1 hx with hx | hx
    · exact (isHex_iff x).1 (l3 x hx)
    · exact (isHex_iff x).1 (l4 x hx)
  · exact fun x hx => (isHex_iff x).1 (l5 x hx)

/-- A token of the grammar is matched. -/
theorem match_of_Grammar (s : String) (h : Grammar s) :
    (matchToks ucidParsePattern s.data).isSome = true := by
  obtain ⟨c, g1, g2, g3, g4, hs, c1, c2, cl, ⟨a1, l1⟩, ⟨a2, l2⟩, ⟨a3, l3⟩, ⟨a4, l4⟩⟩ := h
  have a3' : g3.data.length = 4 := a3
  have hd : s.data = c.data ++ '_' :: (g1.data ++ '_' :: (g2.data ++ '_' ::
      (g3.data.take 3 ++ (g3.data.drop 3 ++ '_' :: g4.data)))) := by
    rw [hs]
    simp only [String.data_append, List.append_assoc]
    rw [← List.append_assoc (List.take 3 g3.data), List.take_append_drop]
    rfl
  rw [hd]
  refine match_ucid_of_shape c.data g1.data g2.data (g3.data.take 3) (g3.data.drop 3) g4.data
    c1 c2 (fun x hx => (isLower_iff x).2 (cl x hx)) a1 a2 ?_ ?_ a4
    (fun x hx => (isHex_iff x).2 (l1 x hx)) (fun x hx => (isHex_iff x).2 (l2 x hx))
    (fun x hx => (isHex_iff x).2 (l3 x (List.mem_of_mem_take hx)))
    (fun x hx => (isHex_iff x).2 (l3 x (List.mem_of_mem_drop hx)))
    (fun x hx => (isHex_iff x).2 (l4 x hx))
  · rw [List.length_take]; omega
  · rw [List.length_drop]; omega

theorem takeWhile_dropWhile_append (p : Char → Bool) (c r : List Char) (y : Char)
    (hc : ∀ x ∈ c, p x = true) (hy : p y = false) :
    (c ++ y :: r).takeWhile p = c ∧ (c ++ y :: r).dropWhile p = y :: r := by
  induction c with
  | nil => simp [List.takeWhile, List.dropWhile, hy]
  | cons a c ih =>
    have ha := hc a (List.mem_cons_self a c)
    have := ih fun x hx => hc x (List.mem_cons_of_mem a hx)
    simp [List.takeWhile, List.dropWhile, ha, this]

/-- Context part and hex stream of a text of the shape of `ucidParsePattern`. -/
theorem parts_of_shape (s : String) (c g1 g2 g3a g3b g4 : List Char)
    (hs : s.data = c ++ '_' :: (g1 ++ '_' :: (g2 ++ '_' :: (g3a ++ (g3b ++ '_' :: g4)))))
    (cl : ∀ x ∈ c, isLower x = true)
    (l1 : ∀ x ∈ g1, isHex x = true) (l2 : ∀ x ∈ g2, isHex x = true)
    (l3 : ∀ x ∈ g3a, isHex x = true) (l4 : ∀ x ∈ g3b, isHex x = true)
    (l5 : ∀ x ∈ g4, isHex x = true) :
    contextPart s = ⟨c⟩ ∧ hexStream s = (g1 ++ g2 ++ g3a) ++ (g3b ++ g4) := by
  have hp : ∀ x ∈ c, (fun x : Char => x != '_') x = true := by
    intro x hx
    simpa using isLower_ne_underscore x (cl x hx)
  have hf : ∀ g : List Char, (∀ x ∈ g, isHex x = true) →
      g.filter (fun x : Char => x != '_') = g := by
    intro g hg
    rw [List.filter_eq_self]
    intro x hx
    simpa using (isHex_facts x (hg x hx)).1
  obtain ⟨ht, hdw⟩ := takeWhile_dropWhile_append (fun x : Char => x != '_') c
    (g1 ++ '_' :: (g2 ++ '_' :: (g3a ++ (g3b ++ '_' :: g4)))) '_' hp (by decide)
  constructor
  · simp only [contextPart, hs, ht]
  · simp only [hexStream, hs, hdw]
    have hu : (fun x : Char => x != '_') '_' = false := by decide
    simp only [List.filter_cons, List.filter_append, hu, Bool.false_eq_true, if_false,
      hf g1 l1, hf g2 l2, hf g3a l3, hf g3b l4, hf g4 l5, List.append_assoc]

/-! ## Lemmas joining the encoder and the decoder -/

/-- On a valid record the `Sprintf` call writes the 16 digits of the hex stream. -/
theorem Sprintf_eq_hexDigits (d : Data) (h : d.Valid) :
    Sprintf_011x_05x d.Timestamp d.Random = ⟨d.hexDigits⟩ := by
  obtain ⟨_, _, _, h4, h5, h6, h7⟩ := h
  have e1 := fmtHex_eq_hexFixed 11 d.Timestamp (by norm_num) (by norm_num) h4
    (by norm_num; omega)
  have e2 := fmtHex_eq_hexFixed 5 d.Random (by norm_num) (by norm_num) h6 (by norm_num; omega)
  simp only [Sprintf_011x_05x, Data.hexDigits, e1, e2]

theorem hexDigits_length (d : Data) : d.hexDigits.length = 16 := by
  simp [Data.hexDigits, hexFixed_length]

theorem space_mem_join (a b c d e : String) : ' ' ∈ (stringsJoin [a, b, c, d, e] " ").data := by
  simp [stringsJoin, String.data_append]

theorem isLower_ne_space (c : Char) (h : isLower c = true) : c ≠ ' ' := by
  rw [isLower_iff] at h
  intro hc
  subst hc
  exact absurd h (by decide)

theorem isHex_ne_space (c : Char) (h : isHex c = true) : c ≠ ' ' := by
  revert c
  apply isHex_forall
  · intro n h1 h2
    interval_cases n <;> decide
  · intro n h1 h2
    interval_cases n <;> decide

/-- A text matched by `ucidParsePattern` contains no space. -/
theorem match_ucid_no_space (cs : List Char) (caps : List String)
    (h : matchToks ucidParsePattern cs = some caps) : ' ' ∉ cs := by
  obtain ⟨c, g1, g2, g3a, g3b, g4, hcs, _, _, _, cl, _, _, _, _, _, l1, l2, l3, l4, l5⟩ :=
    match_ucid_shape cs caps h
  subst hcs
  intro hm
  simp only [List.mem_append, List.mem_cons] at hm
  have hu : (' ' : Char) ≠ '_' := by decide
  rcases hm with hm | hm | hm | hm | hm | hm | hm | hm | hm | hm
  · exact isLower_ne_space _ (cl _ hm) rfl
  · exact hu hm
  · exact isHex_ne_space _ (l1 _ hm) rfl
  · exact hu hm
  · exact isHex_ne_space _ (l2 _ hm) rfl
  · exact hu hm
  · exact isHex_ne_space _ (l3 _ hm) rfl
  · exact isHex_ne_space _ (l4 _ hm) rfl
  · exact hu hm
  · exact isHex_ne_space _ (l5 _ hm) rfl

/-- The decoder rejects every text that contains a space. -/
theorem DataFromUCID_of_space (s : String) (h : ' ' ∈ s.data) :
    DataFromUCID s = (Data.zero, some ErrInvalidUCID) := by
  cases hm : matchToks ucidParsePattern s.data with
  | none => exact DataFromUCID_of_no_match s hm
  | some caps => exact absurd h (match_ucid_no_space s.data caps hm)

/-- The decoder rejects what the encoder returns for any valid record. -/
theorem DataFromUCID_ToUCID_of_valid (d : Data) (h : d.Valid) :
    ∃ s, d.ToUCID = some (s, none) ∧ DataFromUCID s = (Data.zero, some ErrInvalidUCID) :=
  ⟨_, ToUCID_of_valid d h, DataFromUCID_of_space _ (space_mem_join _ _ _ _ _)⟩

/-- With the separator `"_"` the five parts of `Data{"err", 0, 0}` join to `ErrorUCID`. -/
theorem stringsJoin_underscore_err :
    stringsJoin ["err", "0000", "0000", "0000", "0000"] "_" = ErrorUCID := by
  decide

/-! ## Claims on the round trip and the canonical form -/

/-- C1 fails on the code: the record `Data{"test", 1, 0x11111}` is valid and `ToUCID`
returns `"test 0000 0000 0011 1111"` for it, the parts joined by spaces, which
`DataFromUCID` rejects with `ErrInvalidUCID`, so the round trip does not return the
record. -/
theorem roundtrip_fails_at_test :
    Data.Valid ⟨"test", 1, 0x11111⟩ ∧
    Data.ToUCID ⟨"test", 1, 0x11111⟩ = some ("test 0000 0000 0011 1111", none) ∧
    DataFromUCID "test 0000 0000 0011 1111" = (Data.zero, some ErrInvalidUCID) ∧
    (Data.zero, some ErrInvalidUCID) ≠ ((⟨"test", 1, 0x11111⟩ : Data), (none : Option GoError)) := by
  refine ⟨by decide, by decide, by decide, by decide⟩

/-- C2 as stated fails at `Data{"test", 1, 0x11111}`: `ToUCID` returns
`"test 0000 0000 0011 1111"`, not `"test_0000_0000_0001_1111"`. -/
theorem ToUCID_test_ne_claimed :
    Data.ToUCID ⟨"test", 1, 0x11111⟩ = some ("test 0000 0000 0011 1111", none) ∧
    Data.ToUCID ⟨"test", 1, 0x11111⟩ ≠ some ("test_0000_0000_0001_1111", none) := by
  refine ⟨by decide, by decide⟩

/-- C2, amended: there is one separator such that for every valid record `ToUCID` returns
the context and the four groups `h[0:4]`, `h[4:8]`, `h[8:12]`, `h[12:16]` in this order,
the separator between neighbours, where `h` is the 16-character string of the timestamp
as 11 zero-padded lowercase hex digits followed by the random as 5; for
`Data{"test", 1, 0x11111}` the string `h` is `"0000000000111111"`, whose groups are
`0000`, `0000`, `0011`, `1111`. -/
theorem ToUCID_canonical_form :
    (∃ sep : String, ∀ d : Data, d.Valid →
      d.hexDigits.length = 16 ∧
      d.ToUCID = some
        (d.Context ++ sep ++ ⟨d.hexDigits.take 4⟩ ++ sep ++ ⟨(d.hexDigits.drop 4).take 4⟩ ++ sep ++
          ⟨(d.hexDigits.drop 8).take 4⟩ ++ sep ++ ⟨(d.hexDigits.drop 12).take 4⟩, none)) ∧
    Data.hexDigits ⟨"test", 1, 0x11111⟩ = "0000000000111111".data ∧
    Data.hexDigits ⟨"test", 1, 0x11111⟩ = "0000".data ++ "0000".data ++ "0011".data ++ "1111".data := by
  refine ⟨⟨" ", fun d h => ⟨hexDigits_length d, ?_⟩⟩, by decide, by decide⟩
  rw [ToUCID_of_valid d h, Sprintf_eq_hexDigits d h]
  simp only [stringsJoin, List.drop_zero, Nat.sub_zero, Nat.reduceSub, String.append_assoc]

/-- Witness of C2, amended, at `Data{"test", 1, 0x11111}`. -/
theorem ToUCID_canonical_form_witness :
    ∃ sep : String, Data.Valid ⟨"test", 1, 0x11111⟩ ∧
      Data.ToUCID ⟨"test", 1, 0x11111⟩ = some
        ("test" ++ sep ++ "0000" ++ sep ++ "0000" ++ sep ++ "0011" ++ sep ++ "1111", none) := by
  obtain ⟨sep, h⟩ := ToUCID_canonical_form.1
  exact ⟨sep, by decide, (h ⟨"test", 1, 0x11111⟩ (by decide)).2⟩

/-! ## Claims on the encoder's validation -/

/-- C3: for every record, `ToUCID` returns a nil error exactly when the context has 2 to
8 bytes, all letters `a`-`z`, the timestamp is in `[0, 0xFFFFFFFFFFF]` and the random is
in `[0, 0xFFFFF]`; in particular the record with both maxima is accepted, a timestamp of
`0x100000000000` gives `ErrTimestampTooHigh` and a random of `0x100000` gives
`ErrRandomTooHigh`. -/
theorem ToUCID_nil_error_iff_valid :
    (∀ d : Data, d.ToUCID.map Prod.snd = some none ↔
      (2 ≤ goLen d.Context ∧ goLen d.Context ≤ 8 ∧ (∀ c ∈ d.Context.data, 'a' ≤ c ∧ c ≤ 'z') ∧
        0 ≤ d.Timestamp ∧ d.Timestamp ≤ 0xFFFFFFFFFFF ∧ 0 ≤ d.Random ∧ d.Random ≤ 0xFFFFF)) ∧
    (Data.ToUCID ⟨"test", 0xFFFFFFFFFFF, 0xFFFFF⟩).map Prod.snd = some none ∧
    (Data.ToUCID ⟨"test", 0x100000000000, 0⟩).map Prod.snd = some (some ErrTimestampTooHigh) ∧
    (Data.ToUCID ⟨"test", 0, 0x100000⟩).map Prod.snd = some (some ErrRandomTooHigh) := by
  refine ⟨fun d => ?_, by decide, by decide, by decide⟩
  constructor
  · intro h
    rcases ToUCID_error_cases d with c | c | c | c | c | c | c | c
    · rw [c.2] at h; simp at h
    · rw [c.2.2] at h; simp at h
    · rw [c.2.2.2] at h; simp at h
    · rw [c.2.2.2.2] at h; simp at h
    · rw [c.2.2.2.2.2] at h; simp at h
    · rw [c.2.2.2.2.2.2] at h; simp at h
    · rw [c.2.2.2.2.2.2.2] at h; simp at h
    · exact c.1
  · intro h
    rw [ToUCID_of_valid d h]
    rfl

/-- C4: the error of `ToUCID` is the first violated check, in the order context too
short, context too long, character outside `a`-`z`, timestamp negative, timestamp too
high, random negative, random too high: each error is returned exactly when its
condition holds and none before it does; `Data{"", -1, -1}` gives `ErrContextTooShort`. -/
theorem ToUCID_first_violation :
    (∀ d : Data,
      (d.ToUCID.map Prod.snd = some (some ErrContextTooShort) ↔ goLen d.Context < 2) ∧
      (d.ToUCID.map Prod.snd = some (some ErrContextTooLong) ↔
        ¬ goLen d.Context < 2 ∧ goLen d.Context > 8) ∧
      (d.ToUCID.map Prod.snd = some (some ErrContextOnlyLowerCaseLetter) ↔
        ¬ goLen d.Context < 2 ∧ ¬ goLen d.Context > 8 ∧
        ∃ c ∈ d.Context.data, ¬ ('a' ≤ c ∧ c ≤ 'z')) ∧
      (d.ToUCID.map Prod.snd = some (some ErrTimestampNegative) ↔
        ¬ goLen d.Context < 2 ∧ ¬ goLen d.Context > 8 ∧
        (¬ ∃ c ∈ d.Context.data, ¬ ('a' ≤ c ∧ c ≤ 'z')) ∧ d.Timestamp < 0) ∧
      (d.ToUCID.map Prod.snd = some (some ErrTimestampTooHigh) ↔
        ¬ goLen d.Context < 2 ∧ ¬ goLen d.Context > 8 ∧
        (¬ ∃ c ∈ d.Context.data, ¬ ('a' ≤ c ∧ c ≤ 'z')) ∧ ¬ d.Timestamp < 0 ∧
        d.Timestamp > 0xFFFFFFFFFFF) ∧
      (d.ToUCID.map Prod.snd = some (some ErrRandomNegative) ↔
        ¬ goLen d.Context < 2 ∧ ¬ goLen d.Context > 8 ∧
        (¬ ∃ c ∈ d.Context.data, ¬ ('a' ≤ c ∧ c ≤ 'z')) ∧ ¬ d.Timestamp < 0 ∧
        ¬ d.Timestamp > 0xFFFFFFFFFFF ∧ d.Random < 0) ∧
      (d.ToUCID.map Prod.snd = some (some ErrRandomTooHigh) ↔
        ¬ goLen d.Context < 2 ∧ ¬ goLen d.Context > 8 ∧
        (¬ ∃ c ∈ d.Context.data, ¬ ('a' ≤ c ∧ c ≤ 'z')) ∧ ¬ d.Timestamp < 0 ∧
        ¬ d.Timestamp > 0xFFFFFFFFFFF ∧ ¬ d.Random < 0 ∧ d.Random > 0xFFFFF)) ∧
    (Data.ToUCID ⟨"", -1, -1⟩).map Prod.snd = some (some ErrContextTooShort) := by
  refine ⟨fun d => ?_, by decide⟩
  have hex : (∃ c ∈ d.Context.data, ¬ ('a' ≤ c ∧ c ≤ 'z')) ↔
      ¬ ∀ c ∈ d.Context.data, 'a' ≤ c ∧ c ≤ 'z' := by
    constructor
    · rintro ⟨c, hc, h⟩ hall
      exact h (hall c hc)
    · intro h
      by_contra hn
      exact h fun c hc => by_contra fun hc' => hn ⟨c, hc, hc'⟩
  rw [hex]
  rcases ToUCID_error_cases d with c | c | c | c | c | c | c | c
  · obtain ⟨c1, e⟩ := c
    rw [e]; simp [c1]
  · obtain ⟨c1, c2, e⟩ := c
    rw [e]; simp [c1, c2]
  · obtain ⟨c1, c2, c3, e⟩ := c
    rw [e]; simp [c1, c2, c3]
  · obtain ⟨c1, c2, c3, c4, e⟩ := c
    rw [e]; simpa [c1, c2, c4] using c3
  · obtain ⟨c1, c2, c3, c4, c5, e⟩ := c
    rw [e]; simpa [c1, c2, c4, c5] using c3
  · obtain ⟨c1, c2, c3, c4, c5, c6, e⟩ := c
    rw [e]; simpa [c1, c2, c4, c5, c6] using c3
  · obtain ⟨c1, c2, c3, c4, c5, c6, c7, e⟩ := c
    rw [e]; simpa [c1, c2, c4, c5, c6, c7] using c3
  · obtain ⟨⟨v1, v2, v3, v4, v5, v6, v7⟩, s, e⟩ := c
    rw [e]
    simp only [Option.map_some', Option.some.injEq, reduceCtorEq, false_iff, not_and, not_not]
    refine ⟨by omega, by omega, ?_, ?_, ?_, ?_, ?_⟩
    · intro _ _; exact v3
    · intro _ _ _; omega
    · intro _ _ _ _; omega
    · intro _ _ _ _ _; omega
    · intro _ _ _ _ _ _; omega

/-- C5: whenever `ToUCID` returns an error, whichever check failed, the string it returns
is the constant `ErrorUCID`, that is `"err_0000_0000_0000_0000"`. -/
theorem ToUCID_error_returns_ErrorUCID (d : Data)
    (h : ∃ e, d.ToUCID.map Prod.snd = some (some e)) :
    d.ToUCID.map Prod.fst = some ErrorUCID ∧ ErrorUCID = "err_0000_0000_0000_0000" := by
  refine ⟨?_, rfl⟩
  obtain ⟨e, h⟩ := h
  rcases ToUCID_error_cases d with c | c | c | c | c | c | c | c
  · rw [c.2]; rfl
  · rw [c.2.2]; rfl
  · rw [c.2.2.2]; rfl
  · rw [c.2.2.2.2]; rfl
  · rw [c.2.2.2.2.2]; rfl
  · rw [c.2.2.2.2.2.2]; rfl
  · rw [c.2.2.2.2.2.2.2]; rfl
  · obtain ⟨_, s, e'⟩ := c
    rw [e'] at h; simp at h

/-- Witness of C5 at `Data{"", -1, -1}`, which fails with `ErrContextTooShort`. -/
theorem ToUCID_error_returns_ErrorUCID_witness :
    (∃ e, (Data.ToUCID ⟨"", -1, -1⟩).map Prod.snd = some (some e)) ∧
    (Data.ToUCID ⟨"", -1, -1⟩).map Prod.fst = some ErrorUCID ∧
    ErrorUCID = "err_0000_0000_0000_0000" :=
  ⟨⟨ErrContextTooShort, by decide⟩,
    ToUCID_error_returns_ErrorUCID ⟨"", -1, -1⟩ ⟨ErrContextTooShort, by decide⟩⟩

/-! ## Claims on the decoder -/

/-- C6: `DataFromUCID` succeeds exactly on the strings `c_g1_g2_g3_g4` with `c` of 2 to 8
characters in `a-z` and each group of 4 characters in `0-9a-f`, nothing before or after,
and returns `ErrInvalidUCID` on every other string; a context of 1 or 11 letters, a
group of 5 digits, an uppercase context and a trailing newline are rejected, contexts of
2 and of 8 letters are accepted. -/
theorem DataFromUCID_succeeds_iff_Grammar :
    (∀ s : String, ((DataFromUCID s).2 = none ↔ Grammar s) ∧
      (¬ Grammar s → DataFromUCID s = (Data.zero, some ErrInvalidUCID))) ∧
    (DataFromUCID "t_0000_0000_0001_1111").2 = some ErrInvalidUCID ∧
    (DataFromUCID "testtoolong_0000_0000_0001_1111").2 = some ErrInvalidUCID ∧
    (DataFromUCID "test_00000_0000_0001_1111").2 = some ErrInvalidUCID ∧
    (DataFromUCID "TEST_0000_0000_0001_1111").2 = some ErrInvalidUCID ∧
    (DataFromUCID "test_0000_0000_0001_1111\n").2 = some ErrInvalidUCID ∧
    (DataFromUCID "te_0000_0000_0001_1111").2 = none ∧
    (DataFromUCID "testtest_0000_0000_0001_1111").2 = none := by
  refine ⟨fun s => ?_, by decide, by decide, by decide, by decide, by decide, by decide,
    by decide⟩
  cases hm : matchToks ucidParsePattern s.data with
  | none =>
    have hng : ¬ Grammar s := by
      intro hg
      have := match_of_Grammar s hg
      rw [hm] at this
      exact absurd this (by simp)
    have hd := DataFromUCID_of_no_match s hm
    refine ⟨⟨fun h => ?_, fun h => absurd h hng⟩, fun _ => hd⟩
    rw [hd] at h
    exact absurd h (by simp)
  | some caps =>
    have hg := Grammar_of_match s caps hm
    obtain ⟨c, g1, g2, g3a, g3b, g4, _, _, _, _, _, _, _, _, _, _, _, _, _, _, _, _, _, _,
      _, _, hd⟩ := DataFromUCID_of_some s caps hm
    refine ⟨⟨fun _ => hg, fun _ => ?_⟩, fun h => absurd hg h⟩
    rw [hd]

/-- C7 as stated fails at `"test_0000_0000_0001_1111"`: its first 11 hex digits are all
zeros, and the decoded timestamp is 0, not 1. -/
theorem DataFromUCID_test_timestamp_ne_one :
    (hexStream "test_0000_0000_0001_1111").take 11 = "00000000000".data ∧
    (DataFromUCID "test_0000_0000_0001_1111").1.Timestamp = 0 ∧
    (DataFromUCID "test_0000_0000_0001_1111").1.Timestamp ≠ 1 := by
  refine ⟨by decide, by decide, by decide⟩

/-- C7, amended: for every string `s` that `DataFromUCID` accepts, with `h` the 16 hex
digits that follow the first underscore of `s`, the underscores removed, the result has
the context equal to the part of `s` before the first underscore, the timestamp equal to
the base-16 value of `h[0:11]` and the random equal to the base-16 value of `h[11:16]`;
`"test_0000_0000_0001_1111"` decodes to context `"test"`, timestamp 0 and random
`0x11111`. -/
theorem DataFromUCID_digit_stream :
    (∀ (s : String) (d : Data), DataFromUCID s = (d, none) →
      (hexStream s).length = 16 ∧ d.Context = contextPart s ∧
      d.Timestamp = hexValue ((hexStream s).take 11) ∧
      d.Random = hexValue (((hexStream s).drop 11).take (16 - 11))) ∧
    DataFromUCID "test_0000_0000_0001_1111" = (⟨"test", 0, 0x11111⟩, none) := by
  refine ⟨fun s d h => ?_, by decide⟩
  cases hm : matchToks ucidParsePattern s.data with
  | none =>
    rw [DataFromUCID_of_no_match s hm] at h
    exact absurd (congrArg Prod.snd h) (by simp)
  | some caps =>
    obtain ⟨c, g1, g2, g3a, g3b, g4, hcs, _, _, _, cl, a1, a2, a3, a4, a5, l1, l2, l3, l4, l5,
      _, _, _, _, _, hd⟩ := DataFromUCID_of_some s caps hm
    obtain ⟨hc, hh⟩ := parts_of_shape s c g1 g2 g3a g3b g4 hcs cl l1 l2 l3 l4 l5
    have hlt : (g1 ++ g2 ++ g3a).length = 11 := by simp only [List.length_append]; omega
    have hlr : (g3b ++ g4).length = 5 := by simp only [List.length_append]; omega
    rw [hd] at h
    have hdd : d = ⟨⟨c⟩, (hexValue (g1 ++ g2 ++ g3a) : Int), (hexValue (g3b ++ g4) : Int)⟩ :=
      (congrArg Prod.fst h).symm
    have ht : (hexStream s).take 11 = g1 ++ g2 ++ g3a := by
      rw [hh, ← hlt, List.take_left']
      rfl
    have hr : ((hexStream s).drop 11).take (16 - 11) = g3b ++ g4 := by
      have hdrop : (g1 ++ g2 ++ g3a ++ (g3b ++ g4)).drop 11 = g3b ++ g4 := List.drop_left' hlt
      rw [hh, hdrop]
      show List.take 5 (g3b ++ g4) = g3b ++ g4
      rw [← hlr]
      exact List.take_length _
    rw [ht, hr, hdd, hc]
    refine ⟨?_, rfl, rfl, rfl⟩
    rw [hh, List.length_append, hlt, hlr]

/-- Witness of C7, amended, at `"test_0000_0000_0001_1111"`. -/
theorem DataFromUCID_digit_stream_witness :
    DataFromUCID "test_0000_0000_0001_1111" = (⟨"test", 0, 0x11111⟩, none) ∧
    (hexStream "test_0000_0000_0001_1111").length = 16 ∧
    (⟨"test", 0, 0x11111⟩ : Data).Context = contextPart "test_0000_0000_0001_1111" ∧
    (⟨"test", 0, 0x11111⟩ : Data).Timestamp =
      hexValue ((hexStream "test_0000_0000_0001_1111").take 11) ∧
    (⟨"test", 0, 0x11111⟩ : Data).Random =
      hexValue (((hexStream "test_0000_0000_0001_1111").drop 11).take (16 - 11)) :=
  ⟨by decide, DataFromUCID_digit_stream.1 "test_0000_0000_0001_1111" ⟨"test", 0, 0x11111⟩
    (by decide)⟩

/-- C8: for every record that `ToUCID` encodes without error, the string returned is
different from `ErrorUCID`; for `Data{"err", 0, 0}` it is `"err 0000 0000 0000 0000"`. -/
theorem ToUCID_ne_ErrorUCID :
    (∀ (d : Data) (s : String), d.ToUCID = some (s, none) → s ≠ ErrorUCID) ∧
    Data.ToUCID ⟨"err", 0, 0⟩ = some ("err 0000 0000 0000 0000", none) ∧
    "err 0000 0000 0000 0000" ≠ ErrorUCID := by
  refine ⟨fun d s h => ?_, by decide, by decide⟩
  rcases ToUCID_error_cases d with c | c | c | c | c | c | c | c
  · rw [c.2] at h; simp at h
  · rw [c.2.2] at h; simp at h
  · rw [c.2.2.2] at h; simp at h
  · rw [c.2.2.2.2] at h; simp at h
  · rw [c.2.2.2.2.2] at h; simp at h
  · rw [c.2.2.2.2.2.2] at h; simp at h
  · rw [c.2.2.2.2.2.2.2] at h; simp at h
  · rw [ToUCID_of_valid d c.1] at h
    have hs : s = _ := (congrArg Prod.fst (Option.some.inj h)).symm
    intro he
    have hmem : ' ' ∈ s.data := by
      rw [hs]; exact space_mem_join _ _ _ _ _
    rw [he] at hmem
    exact absurd hmem (by decide)

/-- Witness of C8 at `Data{"err", 0, 0}`. -/
theorem ToUCID_ne_ErrorUCID_witness :
    Data.ToUCID ⟨"err", 0, 0⟩ = some ("err 0000 0000 0000 0000", none) ∧
    "err 0000 0000 0000 0000" ≠ ErrorUCID :=
  ⟨by decide, ToUCID_ne_ErrorUCID.1 ⟨"err", 0, 0⟩ "err 0000 0000 0000 0000" (by decide)⟩

/-- C9 as stated fails: `DataFromUCID(ErrorUCID)` returns a nil error, not
`ErrInvalidUCID`. -/
theorem DataFromUCID_ErrorUCID_not_invalid :
    (DataFromUCID ErrorUCID).2 = none ∧ (DataFromUCID ErrorUCID).2 ≠ some ErrInvalidUCID := by
  refine ⟨by decide, by decide⟩

/-- C9, amended: `ErrorUCID` is a token of the grammar, and `DataFromUCID(ErrorUCID)`
succeeds with `Data{"err", 0, 0}`. -/
theorem DataFromUCID_ErrorUCID :
    DataFromUCID ErrorUCID = (⟨"err", 0, 0⟩, none) ∧ Grammar ErrorUCID := by
  refine ⟨by decide, ?_⟩
  have h : matchToks ucidParsePattern ErrorUCID.data
      = some ["err", "0000", "0000", "000", "0", "0000"] := by decide
  exact Grammar_of_match ErrorUCID _ h

/-- C10: on every string of the grammar the pattern matches, both calls of `ParseInt`
succeed, the narrowing of the random to `int32` changes nothing, the record returned has
a context of 2 to 8 letters `a`-`z`, a timestamp in `[0, 0xFFFFFFFFFFF]` and a random in
`[0, 0xFFFFF]`, and `ToUCID` on it returns a nil error; and whenever `DataFromUCID`
returns an error, it is `ErrInvalidUCID`. -/
theorem DataFromUCID_single_failure_mode :
    (∀ s : String, Grammar s →
      ∃ (result : List String) (t r : Int),
        FindStringSubmatch ucidParsePattern s = some result ∧
        ParseInt (result.getD 2 "" ++ result.getD 3 "" ++ result.getD 4 "") 16 64 = .ok t ∧
        ParseInt (result.getD 5 "" ++ result.getD 6 "") 16 32 = .ok r ∧
        toInt32 r = r ∧
        DataFromUCID s = (⟨result.getD 1 "", t, toInt32 r⟩, none) ∧
        2 ≤ (result.getD 1 "").length ∧ (result.getD 1 "").length ≤ 8 ∧
        (∀ x ∈ (result.getD 1 "").data, 'a' ≤ x ∧ x ≤ 'z') ∧
        0 ≤ t ∧ t ≤ 0xFFFFFFFFFFF ∧ 0 ≤ toInt32 r ∧ toInt32 r ≤ 0xFFFFF ∧
        Data.Valid ⟨result.getD 1 "", t, toInt32 r⟩ ∧
        (Data.ToUCID ⟨result.getD 1 "", t, toInt32 r⟩).map Prod.snd = some none) ∧
    (∀ (s : String) (e : GoError), (DataFromUCID s).2 = some e → e = ErrInvalidUCID) := by
  constructor
  · intro s hg
    have hsome := match_of_Grammar s hg
    cases hm : matchToks ucidParsePattern s.data with
    | none => rw [hm] at hsome; exact absurd hsome (by simp)
    | some caps =>
      obtain ⟨c, g1, g2, g3a, g3b, g4, _, hcaps, c1, c2, cl, _, _, _, _, _, _, _, _, _, _,
        pt, pr, h32, vt, vr, hd⟩ := DataFromUCID_of_some s caps hm
      have hcl : ∀ x ∈ c, 'a' ≤ x ∧ x ≤ 'z' := fun x hx => (isLower_iff x).1 (cl x hx)
      have hlen : goLen ⟨c⟩ = c.length := goLen_lower c hcl
      have ht0 : (0 : Int) ≤ (hexValue (g1 ++ g2 ++ g3a) : Int) := Int.ofNat_nonneg _
      have hr0 : (0 : Int) ≤ (hexValue (g3b ++ g4) : Int) := Int.ofNat_nonneg _
      have e11 : (16 : Nat) ^ 11 = 17592186044416 := by norm_num
      have e5 : (16 : Nat) ^ 5 = 1048576 := by norm_num
      have ht1 : (hexValue (g1 ++ g2 ++ g3a) : Int) ≤ 0xFFFFFFFFFFF := by
        rw [e11] at vt; omega
      have hr1 : (hexValue (g3b ++ g4) : Int) ≤ 0xFFFFF := by
        rw [e5] at vr; omega
      have hv : Data.Valid
          ⟨⟨c⟩, (hexValue (g1 ++ g2 ++ g3a) : Int), (hexValue (g3b ++ g4) : Int)⟩ :=
        ⟨by rw [hlen]; exact c1, by rw [hlen]; exact c2, hcl, ht0, ht1, hr0, hr1⟩
      refine ⟨s :: caps, (hexValue (g1 ++ g2 ++ g3a) : Int), (hexValue (g3b ++ g4) : Int),
        ?_, ?_, ?_, h32, ?_, ?_, ?_, ?_, ht0, ht1, ?_, ?_, ?_, ?_⟩
      · simp only [FindStringSubmatch, hm, Option.map_some']
      · simp only [hcaps, List.getD_cons_succ, List.getD_cons_zero, mk_append_mk]
        exact pt
      · simp only [hcaps, List.getD_cons_succ, List.getD_cons_zero, mk_append_mk]
        exact pr
      · simp only [hcaps, List.getD_cons_succ, List.getD_cons_zero, h32]
        exact hd
      · simp only [hcaps, List.getD_cons_succ, List.getD_cons_zero]
        exact c1
      · simp only [hcaps, List.getD_cons_succ, List.getD_cons_zero]
        exact c2
      · simp only [hcaps, List.getD_cons_succ, List.getD_cons_zero]
        exact hcl
      · rw [h32]; exact hr0
      · rw [h32]; exact hr1
      · simp only [hcaps, List.getD_cons_succ, List.getD_cons_zero, h32]
        exact hv
      · simp only [hcaps, List.getD_cons_succ, List.getD_cons_zero, h32]
        rw [ToUCID_of_valid _ hv]
        rfl
  · intro s e h
    cases hm : matchToks ucidParsePattern s.data with
    | none =>
      rw [DataFromUCID_of_no_match s hm] at h
      exact (Option.some.inj h).symm
    | some caps =>
      obtain ⟨c, g1, g2, g3a, g3b, g4, _, _, _, _, _, _, _, _, _, _, _, _, _, _, _, _, _, _,
        _, _, hd⟩ := DataFromUCID_of_some s caps hm
      rw [hd] at h
      exact absurd h (by simp)

/-- Witness of C10 at `"test_0000_0000_0001_1111"`, a token of the grammar. -/
theorem DataFromUCID_single_failure_mode_witness :
    Grammar "test_0000_0000_0001_1111" ∧
    ∃ (result : List String) (t r : Int),
      FindStringSubmatch ucidParsePattern "test_0000_0000_0001_1111" = some result ∧
      ParseInt (result.getD 2 "" ++ result.getD 3 "" ++ result.getD 4 "") 16 64 = .ok t ∧
      ParseInt (result.getD 5 "" ++ result.getD 6 "") 16 32 = .ok r ∧
      toInt32 r = r ∧
      DataFromUCID "test_0000_0000_0001_1111" = (⟨result.getD 1 "", t, toInt32 r⟩, none) ∧
      2 ≤ (result.getD 1 "").length ∧ (result.getD 1 "").length ≤ 8 ∧
      (∀ x ∈ (result.getD 1 "").data, 'a' ≤ x ∧ x ≤ 'z') ∧
      0 ≤ t ∧ t ≤ 0xFFFFFFFFFFF ∧ 0 ≤ toInt32 r ∧ toInt32 r ≤ 0xFFFFF ∧
      Data.Valid ⟨result.getD 1 "", t, toInt32 r⟩ ∧
      (Data.ToUCID ⟨result.getD 1 "", t, toInt32 r⟩).map Prod.snd = some none :=
  have hg : Grammar "test_0000_0000_0001_1111" :=
    ⟨"test", "0000", "0000", "0001", "1111", by decide, by decide, by decide, by decide,
      by decide, by decide, by decide, by decide⟩
  ⟨hg, DataFromUCID_single_failure_mode.1 "test_0000_0000_0001_1111" hg⟩

/-! ## Lemmas on the generator -/

theorem MaxTimestamp_succ : MaxTimestamp + 1 = 2 ^ 44 := by decide

theorem MaxRandom_succ : MaxRandom + 1 = 2 ^ 20 := by decide

/-- On a non-negative dividend and a positive divisor Go's `%` is the mathematical
remainder, which lies in `[0, b)`. -/
theorem goRem_of_nonneg (a b : Int) (ha : 0 ≤ a) (hb : 0 < b) :
    goRem a b = a % b ∧ 0 ≤ goRem a b ∧ goRem a b < b :=
  ⟨Int.tmod_eq_emod ha (le_of_lt hb), Int.tmod_nonneg b ha, Int.tmod_lt_of_pos a hb⟩

/-- On a negative dividend and a positive divisor Go's `%` lies in `(-b, 0]`. -/
theorem goRem_of_neg (a b : Int) (ha : a < 0) (hb : 0 < b) :
    -b < goRem a b ∧ goRem a b ≤ 0 := by
  have h := goRem_of_nonneg (-a) b (by omega) hb
  have hn : goRem a b = -goRem (-a) b := by
    unfold goRem
    rw [Int.tmod_def, Int.tmod_def, Int.neg_tdiv]
    ring
  rw [hn]
  omega

/-- The record made by `NewData` from a valid context and non-negative readings is
valid. -/
theorem NewData_valid (context : String) (now rnd : Int)
    (h1 : 2 ≤ context.length) (h2 : context.length ≤ 8)
    (hc : ∀ c ∈ context.data, 'a' ≤ c ∧ c ≤ 'z') (hnow : 0 ≤ now) (hrnd : 0 ≤ rnd) :
    (NewData context now rnd).Valid := by
  have hlen : goLen context = context.length := goLen_lower context.data hc
  have ht := goRem_of_nonneg now (MaxTimestamp + 1) hnow (by decide)
  have hr := goRem_of_nonneg rnd (MaxRandom + 1) hrnd (by decide)
  have e1 : MaxTimestamp + 1 = 17592186044416 := by decide
  have e2 : MaxRandom + 1 = 1048576 := by decide
  rw [e1] at ht
  rw [e2] at hr
  refine ⟨?_, ?_, hc, ?_, ?_, ?_, ?_⟩
  · show 2 ≤ goLen context
    rw [hlen]; exact h1
  · show goLen context ≤ 8
    rw [hlen]; exact h2
  · show 0 ≤ goRem now (MaxTimestamp + 1)
    rw [e1]; exact ht.2.1
  · show goRem now (MaxTimestamp + 1) ≤ 0xFFFFFFFFFFF
    rw [e1]; have := ht.2.2; omega
  · show 0 ≤ goRem rnd (MaxRandom + 1)
    rw [e2]; exact hr.2.1
  · show goRem rnd (MaxRandom + 1) ≤ 0xFFFFF
    rw [e2]; have := hr.2.2; omega

/-- The three outcomes of `MustNew`, read off the result of `New`. -/
theorem MustNew_of_New (context : String) (now rnd : Int) :
    (∀ s, New context now rnd = some (s, none) → MustNew context now rnd = .ok s) ∧
    (∀ s e, New context now rnd = some (s, some e) →
      MustNew context now rnd = .error (Panic.withError e)) := by
  constructor
  · intro s h
    simp only [MustNew, h]
  · intro s e h
    simp only [MustNew, h]

/-! ## Lemmas on the shape of an encoded token -/

theorem hexDigitChar_isHex (d : Nat) (h : d < 16) : isHex (hexDigitChar d) = true := by
  interval_cases d <;> decide

theorem hexFixed_isHex (k : Nat) : ∀ n : Nat, ∀ c ∈ hexFixed k n, isHex c = true := by
  induction k with
  | zero => intro n c hc; simp [hexFixed] at hc
  | succ k ih =>
    intro n c hc
    simp only [hexFixed, List.mem_append, List.mem_singleton] at hc
    rcases hc with hc | hc
    · exact ih _ c hc
    · rw [hc]; exact hexDigitChar_isHex _ (Nat.mod_lt _ (by norm_num))

theorem hexDigits_isHex (d : Data) : ∀ c ∈ d.hexDigits, isHex c = true := by
  intro c hc
  simp only [Data.hexDigits, List.mem_append] at hc
  rcases hc with hc | hc
  · exact hexFixed_isHex _ _ c hc
  · exact hexFixed_isHex _ _ c hc

theorem isHex_le_z (c : Char) (h : isHex c = true) : c ≤ 'z' := by
  rw [isHex_iff] at h
  show c.toNat ≤ 'z'.toNat
  rcases h with ⟨_, h2⟩ | ⟨_, h2⟩
  · have : c.toNat ≤ '9'.toNat := h2
    have e : '9'.toNat ≤ 'z'.toNat := by decide
    omega
  · have : c.toNat ≤ 'f'.toNat := h2
    have e : 'f'.toNat ≤ 'z'.toNat := by decide
    omega

theorem utf8ByteSize_go_append (a b : List Char) :
    String.utf8ByteSize.go (a ++ b) = String.utf8ByteSize.go a + String.utf8ByteSize.go b := by
  induction a with
  | nil => simp [String.utf8ByteSize.go]
  | cons x a ih =>
    show String.utf8ByteSize.go (x :: (a ++ b)) =
      String.utf8ByteSize.go (x :: a) + String.utf8ByteSize.go b
    simp only [String.utf8ByteSize.go]
    rw [ih]
    omega

theorem goLen_mk_append (a b : List Char) :
    goLen ⟨a ++ b⟩ = goLen ⟨a⟩ + goLen ⟨b⟩ := by
  simp only [goLen, String.utf8ByteSize]
  exact utf8ByteSize_go_append a b

theorem goLen_mk_cons (x : Char) (a : List Char) :
    goLen ⟨x :: a⟩ = goLen ⟨a⟩ + x.utf8Size := by
  simp only [goLen, String.utf8ByteSize, String.utf8ByteSize.go]

/-- On characters up to `z` the byte length is the number of characters. -/
theorem goLen_ascii (l : List Char) (h : ∀ x ∈ l, x ≤ 'z') : goLen ⟨l⟩ = l.length := by
  induction l with
  | nil => rfl
  | cons a l ih =>
    have ha := utf8Size_of_le_z a (h a (List.mem_cons_self a l))
    have := ih fun x hx => h x (List.mem_cons_of_mem a hx)
    rw [goLen_mk_cons, this, ha, List.length_cons]

/-- A list of 16 elements is the concatenation of its four slices of 4. -/
theorem four_slices {α : Type} (l : List α) (h : l.length = 16) :
    l.take 4 ++ ((l.drop 4).take 4 ++ ((l.drop 8).take 4 ++ (l.drop 12).take 4)) = l := by
  have e3 : (l.drop 12).take 4 = l.drop 12 := by
    apply List.take_of_length_le
    rw [List.length_drop]; omega
  have d2 : (l.drop 8).take 4 ++ l.drop 12 = l.drop 8 := by
    have := List.take_append_drop 4 (l.drop 8)
    rwa [List.drop_drop] at this
  have d1 : (l.drop 4).take 4 ++ l.drop 8 = l.drop 4 := by
    have := List.take_append_drop 4 (l.drop 4)
    rwa [List.drop_drop] at this
  rw [e3, d2, d1, List.take_append_drop]

/-- Characters of the token that `ToUCID` returns for a valid record: the context, and
the four slices of the hex stream, each after a space. -/
theorem ToUCID_data_of_valid (d : Data) (h : d.Valid) :
    ∃ s, d.ToUCID = some (s, none) ∧
      s.data = d.Context.data ++ ' ' :: (d.hexDigits.take 4 ++ ' ' ::
        ((d.hexDigits.drop 4).take 4 ++ ' ' :: ((d.hexDigits.drop 8).take 4 ++ ' ' ::
          (d.hexDigits.drop 12).take 4))) := by
  refine ⟨_, ToUCID_of_valid d h, ?_⟩
  rw [Sprintf_eq_hexDigits d h]
  simp [stringsJoin, String.data_append]

/-! ## Lemmas on the lexicographic order -/

theorem lexLt_cons_same (c : Char) (a b : List Char) : lexLt (c :: a) (c :: b) = lexLt a b := by
  simp only [lexLt, if_neg (Char.lt_irrefl c)]

theorem lexLt_append_same (p a b : List Char) : lexLt (p ++ a) (p ++ b) = lexLt a b := by
  induction p with
  | nil => rfl
  | cons c p ih => rw [List.cons_append, List.cons_append, lexLt_cons_same, ih]

theorem lexLt_irrefl (a : List Char) : lexLt a a = false := by
  have := lexLt_append_same a [] []
  simpa [lexLt] using this

/-- With first parts of equal length, the order of two concatenations is decided by the
first parts, and by what follows when they are equal. -/
theorem lexLt_append_iff (a : List Char) :
    ∀ (b x y : List Char), a.length = b.length →
      (lexLt (a ++ x) (b ++ y) = true ↔ lexLt a b = true ∨ (a = b ∧ lexLt x y = true)) := by
  induction a with
  | nil =>
    intro b x y hl
    have hb : b = [] := List.length_eq_zero.1 hl.symm
    subst hb
    simp [lexLt]
  | cons c a ih =>
    intro b x y hl
    cases b with
    | nil => simp at hl
    | cons e b =>
      have hl' : a.length = b.length := by simpa using hl
      have := ih b x y hl'
      simp only [List.cons_append, lexLt]
      by_cases h1 : c < e
      · simp [h1]
      · by_cases h2 : e < c
        · have hne : c ≠ e := fun hce => h1 (hce ▸ h2)
          simp [h1, h2, hne]
        · have hce : c = e := by
            have n1 : ¬ c.toNat < e.toNat := h1
            have n2 : ¬ e.toNat < c.toNat := h2
            exact (char_eq_ofNat c e.toNat (by omega)).trans (by simp [Char.ofNat_toNat])
          subst hce
          simp [h1, this]

/-- Putting the same character between the parts keeps the order. -/
theorem lexLt_insert (c : Char) (a b x y x' y' : List Char) (hl : a.length = b.length)
    (hxy : lexLt x y = true → lexLt x' y' = true) (h : lexLt (a ++ x) (b ++ y) = true) :
    lexLt (a ++ c :: x') (b ++ c :: y') = true := by
  rw [lexLt_append_iff a b x y hl] at h
  rw [lexLt_append_iff a b _ _ hl, lexLt_cons_same]
  rcases h with h | ⟨h1, h2⟩
  · exact Or.inl h
  · exact Or.inr ⟨h1, hxy h2⟩

theorem hexDigitChar_lt (a b : Nat) (hab : a < b) (hb : b < 16) :
    hexDigitChar a < hexDigitChar b := by
  interval_cases b <;> interval_cases a <;> decide

/-- Fixed-width hex digits are ordered as the numbers they write. -/
theorem hexFixed_lexLt (k : Nat) :
    ∀ n m : Nat, n < m → m < 16 ^ k → lexLt (hexFixed k n) (hexFixed k m) = true := by
  induction k with
  | zero =>
    intro n m hnm hm
    simp at hm
    omega
  | succ k ih =>
    intro n m hnm hm
    have hm' : m / 16 < 16 ^ k := by
      rw [Nat.div_lt_iff_lt_mul (by norm_num)]
      calc m < 16 ^ (k + 1) := hm
        _ = 16 ^ k * 16 := by ring
    have hlen : (hexFixed k (n / 16)).length = (hexFixed k (m / 16)).length := by
      rw [hexFixed_length, hexFixed_length]
    simp only [hexFixed]
    rw [lexLt_append_iff _ _ _ _ hlen]
    by_cases hq : n / 16 < m / 16
    · exact Or.inl (ih _ _ hq hm')
    · have heq : n / 16 = m / 16 := by omega
      have hr : n % 16 < m % 16 := by omega
      refine Or.inr ⟨by rw [heq], ?_⟩
      have := hexDigitChar_lt (n % 16) (m % 16) hr (Nat.mod_lt _ (by norm_num))
      simp [lexLt, this]

/-- Fixed-width hex digits determine the number below `16 ^ k`. -/
theorem hexFixed_inj (k n m : Nat) (hn : n < 16 ^ k) (hm : m < 16 ^ k)
    (h : hexFixed k n = hexFixed k m) : n = m := by
  rcases Nat.lt_trichotomy n m with hlt | heq | hgt
  · have := hexFixed_lexLt k n m hlt hm
    rw [h, lexLt_irrefl] at this
    exact absurd this (by simp)
  · exact heq
  · have := hexFixed_lexLt k m n hgt hn
    rw [h, lexLt_irrefl] at this
    exact absurd this (by simp)

/-- The hex streams of two valid records are ordered as the pairs of timestamp and
random. -/
theorem hexDigits_lexLt (d1 d2 : Data) (hv1 : d1.Valid) (hv2 : d2.Valid)
    (hlt : d1.Timestamp < d2.Timestamp ∨
      (d1.Timestamp = d2.Timestamp ∧ d1.Random < d2.Random)) :
    lexLt d1.hexDigits d2.hexDigits = true := by
  obtain ⟨_, _, _, a4, _, a6, _⟩ := hv1
  obtain ⟨_, _, _, b4, b5, b6, b7⟩ := hv2
  have e11 : (16 : Nat) ^ 11 = 17592186044416 := by norm_num
  have e5 : (16 : Nat) ^ 5 = 1048576 := by norm_num
  have hlen : (hexFixed 11 d1.Timestamp.toNat).length = (hexFixed 11 d2.Timestamp.toNat).length := by
    rw [hexFixed_length, hexFixed_length]
  simp only [Data.hexDigits]
  rw [lexLt_append_iff _ _ _ _ hlen]
  rcases hlt with h | ⟨h1, h2⟩
  · exact Or.inl (hexFixed_lexLt 11 _ _ (by omega) (by rw [e11]; omega))
  · exact Or.inr ⟨by rw [h1], hexFixed_lexLt 5 _ _ (by omega) (by rw [e5]; omega)⟩

/-- The hex stream of a valid record determines its timestamp and its random. -/
theorem hexDigits_inj (d1 d2 : Data) (hv1 : d1.Valid) (hv2 : d2.Valid)
    (h : d1.hexDigits = d2.hexDigits) :
    d1.Timestamp = d2.Timestamp ∧ d1.Random = d2.Random := by
  obtain ⟨_, _, _, a4, a5, a6, a7⟩ := hv1
  obtain ⟨_, _, _, b4, b5, b6, b7⟩ := hv2
  have e11 : (16 : Nat) ^ 11 = 17592186044416 := by norm_num
  have e5 : (16 : Nat) ^ 5 = 1048576 := by norm_num
  have hlen : (hexFixed 11 d1.Timestamp.toNat).length = (hexFixed 11 d2.Timestamp.toNat).length := by
    rw [hexFixed_length, hexFixed_length]
  obtain ⟨ht, hr⟩ := List.append_inj h hlen
  have t := hexFixed_inj 11 _ _ (by rw [e11]; omega) (by rw [e11]; omega) ht
  have r := hexFixed_inj 5 _ _ (by rw [e5]; omega) (by rw [e5]; omega) hr
  constructor <;> omega

/-- What follows the context in a token: 20 characters, each of one byte. -/
theorem token_tail (h : List Char) (hl : h.length = 16) (hh : ∀ c ∈ h, isHex c = true) :
    (' ' :: (h.take 4 ++ ' ' :: ((h.drop 4).take 4 ++ ' ' :: ((h.drop 8).take 4 ++ ' ' ::
      (h.drop 12).take 4)))).length = 20 ∧
    ∀ x ∈ ' ' :: (h.take 4 ++ ' ' :: ((h.drop 4).take 4 ++ ' ' :: ((h.drop 8).take 4 ++ ' ' ::
      (h.drop 12).take 4))), x ≤ 'z' := by
  constructor
  · simp only [List.length_cons, List.length_append, List.length_take, List.length_drop, hl]
    rfl
  · intro x hx
    have hsp : (' ' : Char) ≤ 'z' := by decide
    simp only [List.mem_cons, List.mem_append] at hx
    rcases hx with hx | hx | hx | hx | hx | hx | hx | hx
    · rw [hx]; exact hsp
    · exact isHex_le_z x (hh x (List.mem_of_mem_take hx))
    · rw [hx]; exact hsp
    · exact isHex_le_z x (hh x (List.mem_of_mem_drop (List.mem_of_mem_take hx)))
    · rw [hx]; exact hsp
    · exact isHex_le_z x (hh x (List.mem_of_mem_drop (List.mem_of_mem_take hx)))
    · rw [hx]; exact hsp
    · exact isHex_le_z x (hh x (List.mem_of_mem_drop (List.mem_of_mem_take hx)))

/-! ## Claims on the generator -/

/-- C11: for every context of 2 to 8 letters `a`-`z`, every non-negative clock reading
and every non-negative value of `RandomGenerator`, `New` returns a string with a nil error
and `MustNew` returns that string without a panic. -/
theorem New_never_fails_on_valid_context (context : String) (now rnd : Int)
    (h1 : 2 ≤ context.length) (h2 : context.length ≤ 8)
    (hc : ∀ c ∈ context.data, 'a' ≤ c ∧ c ≤ 'z') (hnow : 0 ≤ now) (hrnd : 0 ≤ rnd) :
    ∃ s, New context now rnd = some (s, none) ∧ MustNew context now rnd = .ok s := by
  have hv := NewData_valid context now rnd h1 h2 hc hnow hrnd
  have hn : New context now rnd = some (_, none) := ToUCID_of_valid _ hv
  exact ⟨_, hn, (MustNew_of_New context now rnd).1 _ hn⟩

/-- Witness of C11 at the context `"test"`, the clock reading 1700000000000 and the
random value 12345. -/
theorem New_never_fails_on_valid_context_witness :
    ∃ s, New "test" 1700000000000 12345 = some (s, none) ∧
      MustNew "test" 1700000000000 12345 = .ok s :=
  New_never_fails_on_valid_context "test" 1700000000000 12345 (by decide) (by decide)
    (by decide) (by decide) (by decide)

/-- C12 as stated fails at the clock reading `-1`, a value of `int64`: the timestamp set
by `NewData` is `-1`, which is not in `[0, 0xFFFFFFFFFFF]`. -/
theorem NewData_timestamp_negative_clock :
    (NewData "test" (-1) 0).Timestamp = -1 ∧ ¬ 0 ≤ (NewData "test" (-1) 0).Timestamp := by
  refine ⟨by decide, by decide⟩

/-- C12, amended: for every clock reading `t` the timestamp set by `NewData` is
`t % (MaxTimestamp + 1)` with Go's `%`, where `MaxTimestamp + 1 = 2^44`; for every
non-negative `t` it is the remainder of `t` modulo `2^44` and lies in
`[0, 0xFFFFFFFFFFF]`, also when `t` exceeds the 44-bit range (`2^44 + 5` gives 5); for a
negative `t` it lies in `[-0xFFFFFFFFFFF, 0]`. -/
theorem NewData_timestamp_range :
    (∀ (context : String) (t rnd : Int),
      (NewData context t rnd).Timestamp = goRem t (MaxTimestamp + 1)) ∧
    MaxTimestamp + 1 = 2 ^ 44 ∧
    (∀ (context : String) (t rnd : Int), 0 ≤ t →
      (NewData context t rnd).Timestamp = t % 2 ^ 44 ∧
      0 ≤ (NewData context t rnd).Timestamp ∧
      (NewData context t rnd).Timestamp ≤ 0xFFFFFFFFFFF) ∧
    (∀ (context : String) (t rnd : Int), t < 0 →
      -0xFFFFFFFFFFF ≤ (NewData context t rnd).Timestamp ∧
      (NewData context t rnd).Timestamp ≤ 0) ∧
    (NewData "test" (2 ^ 44 + 5) 0).Timestamp = 5 := by
  have e1 : MaxTimestamp + 1 = 17592186044416 := by decide
  refine ⟨fun _ _ _ => rfl, by decide, ?_, ?_, by decide⟩
  · intro context t rnd ht
    have h := goRem_of_nonneg t (MaxTimestamp + 1) ht (by decide)
    rw [e1] at h
    show goRem t (MaxTimestamp + 1) = t % 2 ^ 44 ∧ 0 ≤ goRem t (MaxTimestamp + 1) ∧
      goRem t (MaxTimestamp + 1) ≤ 0xFFFFFFFFFFF
    rw [e1]
    refine ⟨?_, h.2.1, ?_⟩
    · rw [h.1]; norm_num
    · have := h.2.2; omega
  · intro context t rnd ht
    have h := goRem_of_neg t (MaxTimestamp + 1) ht (by decide)
    rw [e1] at h
    show -0xFFFFFFFFFFF ≤ goRem t (MaxTimestamp + 1) ∧ goRem t (MaxTimestamp + 1) ≤ 0
    rw [e1]
    refine ⟨?_, h.2⟩
    have := h.1; omega

/-- Witness of C12, amended, at the clock reading `2^44 + 5`, above the 44-bit range. -/
theorem NewData_timestamp_range_witness :
    (0 : Int) ≤ 2 ^ 44 + 5 ∧
    (NewData "test" (2 ^ 44 + 5) 0).Timestamp = (2 ^ 44 + 5) % 2 ^ 44 ∧
    0 ≤ (NewData "test" (2 ^ 44 + 5) 0).Timestamp ∧
    (NewData "test" (2 ^ 44 + 5) 0).Timestamp ≤ 0xFFFFFFFFFFF :=
  ⟨by decide, NewData_timestamp_range.2.2.1 "test" (2 ^ 44 + 5) 0 (by decide)⟩

/-- C13: for every non-negative value `r` returned by `RandomGenerator`, the record made
by `NewData` has the random equal to `r mod (MaxRandom + 1)`, that is `r mod 2^20`, which
lies in `[0, 0xFFFFF]`, and the context equal to the argument. -/
theorem NewData_random_range (context : String) (now r : Int) (hr : 0 ≤ r) :
    (NewData context now r).Random = goRem r (MaxRandom + 1) ∧
    MaxRandom + 1 = 2 ^ 20 ∧
    (NewData context now r).Random = r % 2 ^ 20 ∧
    0 ≤ (NewData context now r).Random ∧ (NewData context now r).Random ≤ 0xFFFFF ∧
    (NewData context now r).Context = context := by
  have e2 : MaxRandom + 1 = 1048576 := by decide
  have h := goRem_of_nonneg r (MaxRandom + 1) hr (by decide)
  rw [e2] at h
  refine ⟨rfl, by decide, ?_, ?_, ?_, rfl⟩
  · show goRem r (MaxRandom + 1) = r % 2 ^ 20
    rw [e2, h.1]; norm_num
  · show 0 ≤ goRem r (MaxRandom + 1)
    rw [e2]; exact h.2.1
  · show goRem r (MaxRandom + 1) ≤ 0xFFFFF
    rw [e2]; have := h.2.2; omega

/-- Witness of C13 at the random value `0x7FFFFFFF`, the largest of `rand.Int31`. -/
theorem NewData_random_range_witness :
    (NewData "test" 0 0x7FFFFFFF).Random = goRem 0x7FFFFFFF (MaxRandom + 1) ∧
    MaxRandom + 1 = 2 ^ 20 ∧
    (NewData "test" 0 0x7FFFFFFF).Random = 0x7FFFFFFF % 2 ^ 20 ∧
    0 ≤ (NewData "test" 0 0x7FFFFFFF).Random ∧ (NewData "test" 0 0x7FFFFFFF).Random ≤ 0xFFFFF ∧
    (NewData "test" 0 0x7FFFFFFF).Context = "test" :=
  NewData_random_range "test" 0 0x7FFFFFFF (by decide)

/-- C14: for two valid records with the same context, if the pair of timestamp and
random of the first is smaller in lexicographic order, timestamp first, then the token
of the first is strictly smaller than the token of the second in the byte-wise
lexicographic order of strings. -/
theorem ToUCID_sortable (d1 d2 : Data) (hv1 : d1.Valid) (hv2 : d2.Valid)
    (hc : d1.Context = d2.Context)
    (hlt : d1.Timestamp < d2.Timestamp ∨
      (d1.Timestamp = d2.Timestamp ∧ d1.Random < d2.Random)) :
    ∃ s1 s2, d1.ToUCID = some (s1, none) ∧ d2.ToUCID = some (s2, none) ∧
      strLt s1 s2 = true := by
  obtain ⟨s1, e1, f1⟩ := ToUCID_data_of_valid d1 hv1
  obtain ⟨s2, e2, f2⟩ := ToUCID_data_of_valid d2 hv2
  refine ⟨s1, s2, e1, e2, ?_⟩
  have hh := hexDigits_lexLt d1 d2 hv1 hv2 hlt
  have l1 := hexDigits_length d1
  have l2 := hexDigits_length d2
  rw [← four_slices d1.hexDigits l1, ← four_slices d2.hexDigits l2] at hh
  have ht : ∀ (n : Nat), ((d1.hexDigits.drop n).take 4).length =
      ((d2.hexDigits.drop n).take 4).length := by
    intro n
    simp only [List.length_take, List.length_drop, l1, l2]
  have ht0 : (d1.hexDigits.take 4).length = (d2.hexDigits.take 4).length := by
    simp only [List.length_take, l1, l2]
  unfold strLt
  rw [f1, f2, hc, lexLt_append_same, lexLt_cons_same]
  exact lexLt_insert ' ' _ _ _ _ _ _ ht0
    (lexLt_insert ' ' _ _ _ _ _ _ (ht 4) (lexLt_insert ' ' _ _ _ _ _ _ (ht 8) id)) hh

/-- Witness of C14 at `Data{"test", 1, 0xFFFFF}` and `Data{"test", 2, 0}`. -/
theorem ToUCID_sortable_witness :
    ∃ s1 s2, Data.ToUCID ⟨"test", 1, 0xFFFFF⟩ = some (s1, none) ∧
      Data.ToUCID ⟨"test", 2, 0⟩ = some (s2, none) ∧ strLt s1 s2 = true :=
  ToUCID_sortable ⟨"test", 1, 0xFFFFF⟩ ⟨"test", 2, 0⟩ (by decide) (by decide) rfl
    (Or.inl (by decide))

/-- C16: whenever `DataFromUCID` returns an error, the record it returns is the zero
value `Data{}`, with an empty context and both numbers 0. -/
theorem DataFromUCID_error_returns_zero (s : String) (e : GoError)
    (h : (DataFromUCID s).2 = some e) :
    (DataFromUCID s).1 = Data.zero ∧ Data.zero = ⟨"", 0, 0⟩ := by
  refine ⟨?_, rfl⟩
  cases hm : matchToks ucidParsePattern s.data with
  | none => rw [DataFromUCID_of_no_match s hm]
  | some caps =>
    obtain ⟨c, g1, g2, g3a, g3b, g4, _, _, _, _, _, _, _, _, _, _, _, _, _, _, _, _, _, _,
      _, _, hd⟩ := DataFromUCID_of_some s caps hm
    rw [hd] at h
    exact absurd h (by simp)

/-- Witness of C16 at `"TEST_0000_0000_0001_1111"`, rejected for its uppercase context. -/
theorem DataFromUCID_error_returns_zero_witness :
    (DataFromUCID "TEST_0000_0000_0001_1111").2 = some ErrInvalidUCID ∧
    (DataFromUCID "TEST_0000_0000_0001_1111").1 = Data.zero ∧ Data.zero = ⟨"", 0, 0⟩ :=
  ⟨by decide,
    DataFromUCID_error_returns_zero "TEST_0000_0000_0001_1111" ErrInvalidUCID (by decide)⟩

/-- C18: for every valid record the string built by `Sprintf("%011x%05x", ...)` has
exactly 16 characters, 11 for the timestamp and 5 for the random, all in `0-9a-f`; the
four slices `[0:4]`, `[4:8]`, `[8:12]`, `[12:16]` are in bounds and together make the
whole string; `ToUCID` returns a token of `len(Context) + 20` bytes; and `ToUCID` panics
on no record at all. -/
theorem ToUCID_slices_in_bounds :
    (∀ d : Data, d.Valid →
      (fmtHex 11 d.Timestamp).length = 11 ∧ (fmtHex 5 d.Random).length = 5 ∧
      (Sprintf_011x_05x d.Timestamp d.Random).data.length = 16 ∧
      goLen (Sprintf_011x_05x d.Timestamp d.Random) = 16 ∧
      (∀ c ∈ (Sprintf_011x_05x d.Timestamp d.Random).data,
        ('0' ≤ c ∧ c ≤ '9') ∨ ('a' ≤ c ∧ c ≤ 'f')) ∧
      (∃ p0 p1 p2 p3 : String,
        sliceStr (Sprintf_011x_05x d.Timestamp d.Random) 0 4 = some p0 ∧
        sliceStr (Sprintf_011x_05x d.Timestamp d.Random) 4 8 = some p1 ∧
        sliceStr (Sprintf_011x_05x d.Timestamp d.Random) 8 12 = some p2 ∧
        sliceStr (Sprintf_011x_05x d.Timestamp d.Random) 12 16 = some p3 ∧
        p0 ++ p1 ++ p2 ++ p3 = Sprintf_011x_05x d.Timestamp d.Random) ∧
      ∃ s, d.ToUCID = some (s, none) ∧ goLen s = goLen d.Context + 20) ∧
    (∀ d : Data, d.ToUCID ≠ none) := by
  constructor
  · intro d hv
    have hs := Sprintf_eq_hexDigits d hv
    have hl := hexDigits_length d
    have hh := hexDigits_isHex d
    obtain ⟨_, _, _, h4, h5, h6, h7⟩ := hv
    have hv : d.Valid := ⟨by assumption, by assumption, by assumption, h4, h5, h6, h7⟩
    have e1 := fmtHex_eq_hexFixed 11 d.Timestamp (by norm_num) (by norm_num) h4
      (by norm_num; omega)
    have e2 := fmtHex_eq_hexFixed 5 d.Random (by norm_num) (by norm_num) h6
      (by norm_num; omega)
    have hdl : (Sprintf_011x_05x d.Timestamp d.Random).data.length = 16 := by rw [hs]; exact hl
    have hz : ∀ x ∈ d.hexDigits, x ≤ 'z' := fun x hx => isHex_le_z x (hh x hx)
    refine ⟨by rw [e1, hexFixed_length], by rw [e2, hexFixed_length], hdl, ?_, ?_, ?_, ?_⟩
    · rw [hs, goLen_ascii _ hz, hl]
    · rw [hs]
      exact fun c hc => (isHex_iff c).1 (hh c hc)
    · refine ⟨_, _, _, _, sliceStr_eq_some _ 0 4 (by omega) (by omega),
        sliceStr_eq_some _ 4 8 (by omega) (by omega),
        sliceStr_eq_some _ 8 12 (by omega) (by omega),
        sliceStr_eq_some _ 12 16 (by omega) (by omega), ?_⟩
      rw [hs]
      simp only [mk_append_mk, List.drop_zero, Nat.sub_zero, Nat.reduceSub, List.append_assoc]
      rw [four_slices d.hexDigits hl]
    · obtain ⟨s, es, fs⟩ := ToUCID_data_of_valid d hv
      refine ⟨s, es, ?_⟩
      obtain ⟨tl, tz⟩ := token_tail d.hexDigits hl hh
      have hs' : s = ⟨s.data⟩ := rfl
      rw [hs', fs, goLen_mk_append, goLen_ascii _ tz, tl]
  · intro d hn
    have hcases := ToUCID_error_cases d
    rw [hn] at hcases
    simp at hcases

/-- Witness of C18 at `Data{"test", 0xFFFFFFFFFFF, 0xFFFFF}`, with both maxima. -/
theorem ToUCID_slices_in_bounds_witness :
    Data.Valid ⟨"test", 0xFFFFFFFFFFF, 0xFFFFF⟩ ∧
    (fmtHex 11 0xFFFFFFFFFFF).length = 11 ∧ (fmtHex 5 0xFFFFF).length = 5 ∧
    (Sprintf_011x_05x 0xFFFFFFFFFFF 0xFFFFF).data.length = 16 ∧
    sliceStr (Sprintf_011x_05x 0xFFFFFFFFFFF 0xFFFFF) 12 16 = some "ffff" ∧
    ∃ s, Data.ToUCID ⟨"test", 0xFFFFFFFFFFF, 0xFFFFF⟩ = some (s, none) ∧
      goLen s = goLen "test" + 20 :=
  have h := ToUCID_slices_in_bounds.1 ⟨"test", 0xFFFFFFFFFFF, 0xFFFFF⟩ (by decide)
  ⟨by decide, h.1, h.2.1, h.2.2.1, by decide, h.2.2.2.2.2.2⟩

/-- C19 fails on the code: `DataFromUCID` accepts `"test_0000_0000_0001_1111"` and returns
`Data{"test", 0, 0x11111}`, and `ToUCID` on that record returns
`"test 0000 0000 0001 1111"`, the parts joined by spaces, not the string decoded. -/
theorem reverse_roundtrip_fails_at_test :
    DataFromUCID "test_0000_0000_0001_1111" = (⟨"test", 0, 0x11111⟩, none) ∧
    Data.ToUCID ⟨"test", 0, 0x11111⟩ = some ("test 0000 0000 0001 1111", none) ∧
    Data.ToUCID ⟨"test", 0, 0x11111⟩ ≠ some ("test_0000_0000_0001_1111", none) := by
  refine ⟨by decide, by decide, by decide⟩

/-- C20: two valid records for which `ToUCID` returns the same string are equal, in
context, timestamp and random. -/
theorem ToUCID_injective (d1 d2 : Data) (hv1 : d1.Valid) (hv2 : d2.Valid)
    (h : d1.ToUCID.map Prod.fst = d2.ToUCID.map Prod.fst) :
    d1 = d2 ∧ d1.Context = d2.Context ∧ d1.Timestamp = d2.Timestamp ∧
      d1.Random = d2.Random := by
  obtain ⟨s1, e1, f1⟩ := ToUCID_data_of_valid d1 hv1
  obtain ⟨s2, e2, f2⟩ := ToUCID_data_of_valid d2 hv2
  rw [e1, e2] at h
  have hs : s1 = s2 := by simpa using h
  have l1 := hexDigits_length d1
  have l2 := hexDigits_length d2
  have hp : ∀ (d : Data), d.Valid →
      ∀ x ∈ d.Context.data, (fun x : Char => x != ' ') x = true := by
    intro d hv x hx
    have := isLower_ne_space x ((isLower_iff x).2 (hv.2.2.1 x hx))
    simpa using this
  have hsp : (fun x : Char => x != ' ') ' ' = false := by decide
  have hdata : s1.data = s2.data := by rw [hs]
  rw [f1, f2] at hdata
  have t1 := takeWhile_dropWhile_append (fun x : Char => x != ' ') d1.Context.data
    (d1.hexDigits.take 4 ++ ' ' :: ((d1.hexDigits.drop 4).take 4 ++ ' ' ::
      ((d1.hexDigits.drop 8).take 4 ++ ' ' :: (d1.hexDigits.drop 12).take 4))) ' '
    (hp d1 hv1) hsp
  have t2 := takeWhile_dropWhile_append (fun x : Char => x != ' ') d2.Context.data
    (d2.hexDigits.take 4 ++ ' ' :: ((d2.hexDigits.drop 4).take 4 ++ ' ' ::
      ((d2.hexDigits.drop 8).take 4 ++ ' ' :: (d2.hexDigits.drop 12).take 4))) ' '
    (hp d2 hv2) hsp
  have hctx : d1.Context.data = d2.Context.data := by
    rw [← t1.1, ← t2.1, hdata]
  have hrest := t1.2.symm.trans ((congrArg (List.dropWhile fun x : Char => x != ' ') hdata).trans
    t2.2)
  have hrest' := List.cons.inj hrest
  have ht : ∀ (n : Nat), ((d1.hexDigits.drop n).take 4).length =
      ((d2.hexDigits.drop n).take 4).length := by
    intro n
    simp only [List.length_take, List.length_drop, l1, l2]
  have ht0 : (d1.hexDigits.take 4).length = (d2.hexDigits.take 4).length := by
    simp only [List.length_take, l1, l2]
  obtain ⟨q0, r0⟩ := List.append_inj hrest'.2 ht0
  obtain ⟨q1, r1⟩ := List.append_inj (List.cons.inj r0).2 (ht 4)
  obtain ⟨q2, r2⟩ := List.append_inj (List.cons.inj r1).2 (ht 8)
  have q3 := (List.cons.inj r2).2
  have hh : d1.hexDigits = d2.hexDigits := by
    rw [← four_slices d1.hexDigits l1, ← four_slices d2.hexDigits l2, q0, q1, q2, q3]
  obtain ⟨hts, hrs⟩ := hexDigits_inj d1 d2 hv1 hv2 hh
  have hc : d1.Context = d2.Context := String.ext hctx
  refine ⟨?_, hc, hts, hrs⟩
  obtain ⟨c1, t1, r1⟩ := d1
  obtain ⟨c2, t2, r2⟩ := d2
  simp only at hc hts hrs
  rw [hc, hts, hrs]

/-- Witness of C20 at two valid records with the token `"test 0000 0000 0011 1111"`. -/
theorem ToUCID_injective_witness :
    (Data.ToUCID ⟨"test", 1, 0x11111⟩).map Prod.fst = some "test 0000 0000 0011 1111" ∧
    (Data.ToUCID ⟨"te" ++ "st", 0 + 1, 0x11110 + 1⟩).map Prod.fst =
      some "test 0000 0000 0011 1111" ∧
    ((⟨"test", 1, 0x11111⟩ : Data) = ⟨"te" ++ "st", 0 + 1, 0x11110 + 1⟩ ∧
      (⟨"test", 1, 0x11111⟩ : Data).Context = (⟨"te" ++ "st", 0 + 1, 0x11110 + 1⟩ : Data).Context ∧
      (⟨"test", 1, 0x11111⟩ : Data).Timestamp =
        (⟨"te" ++ "st", 0 + 1, 0x11110 + 1⟩ : Data).Timestamp ∧
      (⟨"test", 1, 0x11111⟩ : Data).Random = (⟨"te" ++ "st", 0 + 1, 0x11110 + 1⟩ : Data).Random) :=
  ⟨by decide, by decide,
    ToUCID_injective ⟨"test", 1, 0x11111⟩ ⟨"te" ++ "st", 0 + 1, 0x11110 + 1⟩ (by decide)
      (by decide) (by decide)⟩

end Ucid
